import Mathlib

/-!
# safedialer: a verification development for `Control`

The Go package `safedialer` exports one function, `Control`, meant to be used
as the `Control` hook of a `net.Dialer`.  It permits only TCP connections to
port 80 and 443 on public IP addresses.

This file embeds `safedialer.go` in Lean together with the functions of Go's
standard library package `net` (and `net/netip`, which `net.ParseIP` delegates
to since Go 1.22) that it calls:

* `net.SplitHostPort`  (net/ipsock.go)
* `net.ParseIP`        (net/ip.go, net/netip/netip.go: `ParseAddr`)
* `net.IPv4`, `net.CIDRMask`, `IP.To4`, `IPNet.Contains` (net/ip.go)

Conventions of the embedding

* A Go `string` is a sequence of bytes: `GoString := List Nat`.  ASCII string
  literals are written `str "tcp4"`.
* A Go `[]byte` (`net.IP`, `net.IPMask`) is a `List Nat`; the `nil` slice is
  the empty list where only its length is inspected, and `none` where the code
  compares the slice with `nil`.
* A Go `error` result is an `Option GoError`; `none` is `nil`.
* Index results (`-1` for "not found") are `Option Nat`.
-/

namespace Safedialer

/-! ## Strings and bytes -/

/-- A Go string: a sequence of bytes. -/
abbrev GoString := List Nat

/-- The bytes of an ASCII string literal. -/
def str (s : String) : GoString := s.toList.map Char.toNat

/-- Go `bytealg.IndexByteString`: index of the first occurrence of `c`. -/
def indexByte : GoString → Nat → Option Nat
  | [], _ => none
  | x :: xs, c =>
    if x = c then some 0
    else match indexByte xs c with
      | some i => some (i + 1)
      | none => none

/-- Go `bytealg.LastIndexByteString`: index of the last occurrence of `c`. -/
def lastIndexByte : GoString → Nat → Option Nat
  | [], _ => none
  | x :: xs, c =>
    match lastIndexByte xs c with
    | some i => some (i + 1)
    | none => if x = c then some 0 else none

/-! ## `net.SplitHostPort` -/

/-- The end of Go `net.SplitHostPort`, after the `if hostport[0] == '['`
statement has set `host`, `j` and `k`; `i` is the index of the last colon. -/
def splitHostPortTail (hostport : GoString) (i : Nat) (host : GoString) (j k : Nat) :
    Option (GoString × GoString) :=
  if (indexByte (hostport.drop j) 91).isSome then none -- unexpected '[' in address
  else if (indexByte (hostport.drop k) 93).isSome then none -- unexpected ']' in address
  else some (host, hostport.drop (i + 1))

/-- Go `net.SplitHostPort` (net/ipsock.go).  The `*AddrError` results are all
mapped to `none`; the comment on each branch names the Go error text.
Bytes: `':'` = 58, `'['` = 91, `']'` = 93. -/
def SplitHostPort (hostport : GoString) : Option (GoString × GoString) :=
  -- The port starts after the last colon.
  match lastIndexByte hostport 58 with
  | none => none -- missing port in address
  | some i =>
    if hostport.head? = some 91 then
      -- Expect the first ']' just before the last ':'.
      match indexByte hostport 93 with
      | none => none -- missing ']' in address
      | some e =>
        if e + 1 = hostport.length then none -- missing port in address
        else if e + 1 = i then
          -- The expected result.
          splitHostPortTail hostport i ((hostport.take e).drop 1) 1 (e + 1)
        else if hostport.get? (e + 1) = some 58 then none -- too many colons in address
        else none -- missing port in address
    else
      let host := hostport.take i
      if (indexByte host 58).isSome then none -- too many colons in address
      else splitHostPortTail hostport i host 0 0

/-! ## `net.IP`, `net.IPMask`, `net.IPNet` -/

/-- Go `net.IP`: a slice of bytes, of length 4 or 16 when it is an address. -/
abbrev IP := List Nat

/-- Go `net.IPMask`. -/
abbrev IPMask := List Nat

/-- Go `net.IPNet`. -/
structure IPNet where
  IP : IP
  Mask : IPMask
deriving DecidableEq, Repr

/-- Go `net.IPv4len`. -/
def IPv4len : Nat := 4

/-- Go `net.IPv6len`. -/
def IPv6len : Nat := 16

/-- Go `v4InV6Prefix`. -/
def v4InV6Prefix : List Nat := [0, 0, 0, 0, 0, 0, 0, 0, 0, 0, 0xff, 0xff]

/-- Go `net.IPv4(a, b, c, d)`: the 16-byte (IPv4-mapped) form of `a.b.c.d`.
The arguments are Go `byte`s. -/
def IPv4 (a b c d : Nat) : IP :=
  v4InV6Prefix ++ [a % 256, b % 256, c % 256, d % 256]

/-- Go `bytealg`-style `isZeros`. -/
def isZeros (p : List Nat) : Bool := p.all (fun x => x == 0)

/-- Go `IP.To4`: the 4-byte form of an IPv4 address, `none` (Go `nil`) when
`ip` is not an IPv4 address. -/
def To4 (ip : IP) : Option IP :=
  if ip.length = IPv4len then some ip
  else if ip.length = IPv6len ∧ isZeros (ip.take 10) = true ∧
      ip.getD 10 0 = 0xff ∧ ip.getD 11 0 = 0xff then
    some ((ip.drop 12).take 4)
  else none

/-- The loop of Go `net.CIDRMask`: `cnt` bytes remain to be written and `n`
one-bits remain.  `^byte(0xff >> n)` is `255 - (255 >>> n)`. -/
def cidrMaskLoop : Nat → Nat → List Nat
  | 0, _ => []
  | cnt + 1, n =>
    if n ≥ 8 then 0xff :: cidrMaskLoop cnt (n - 8)
    else (255 - (0xff >>> n)) :: cidrMaskLoop cnt 0

/-- Go `net.CIDRMask(ones, bits)`; the `nil` mask is `[]`. -/
def CIDRMask (ones bits : Int) : IPMask :=
  if bits ≠ 8 * IPv4len ∧ bits ≠ 8 * IPv6len then []
  else if ones < 0 ∨ ones > bits then []
  else cidrMaskLoop (bits.toNat / 8) ones.toNat

/-- Go `networkNumberAndMask`; the result `nil, nil` is `([], [])`. -/
def networkNumberAndMask (n : IPNet) : IP × IPMask :=
  let ipOpt : Option IP :=
    match To4 n.IP with
    | some ip => some ip
    | none => if n.IP.length ≠ IPv6len then none else some n.IP
  match ipOpt with
  | none => ([], [])
  | some ip =>
    let m := n.Mask
    if m.length = IPv4len then
      if ip.length ≠ IPv4len then ([], []) else (ip, m)
    else if m.length = IPv6len then
      if ip.length = IPv4len then (ip, m.drop 12) else (ip, m)
    else ([], [])

/-- The comparison loop of Go `IPNet.Contains`: `nn[i]&m[i] == ip[i]&m[i]` for
every `i < l`, from index `i` on. -/
def containsLoop (nn m ip : List Nat) (l : Nat) : Nat → Nat → Bool
  | 0, _ => true
  | cnt + 1, i =>
    if i < l then
      if (nn.getD i 0) &&& (m.getD i 0) ≠ (ip.getD i 0) &&& (m.getD i 0) then false
      else containsLoop nn m ip l cnt (i + 1)
    else true

/-- Go `(*IPNet).Contains`. -/
def IPNet.Contains (n : IPNet) (ip : Safedialer.IP) : Bool :=
  let (nn, m) := networkNumberAndMask n
  let ip := match To4 ip with
    | some x => x
    | none => ip
  let l := ip.length
  if l ≠ nn.length then false
  else containsLoop nn m ip l l 0

/-! ## `net.ParseIP` (through `netip.ParseAddr`) -/

/-- Go `netip.Addr`, reduced to what `net.ParseIP` reads from it: the 16 bytes
returned by `As16` (an IPv4 address is held in its IPv4-mapped form) and the
zone. -/
structure Addr where
  as16 : List Nat
  zone : GoString
deriving DecidableEq, Repr

/-- The loop of Go `netip.parseIPv4Fields` (inlined in `parseIPv4` before
Go 1.22).  `rest` is `s[i:]` and `prev` is `s[i-1]` (`none` when `i == 0`), so
that `i == 0 || i == len(s)-1 || s[i-1] == '.'` reads
`prev = none ∨ rest = [] ∨ prev = some 46` in the branch of a dot.
Bytes: `'0'` = 48, `'9'` = 57, `'.'` = 46. -/
def parseIPv4FieldsLoop :
    GoString → Option Nat → Nat → Nat → Nat → List Nat → Option (List Nat)
  | [], _, val, pos, _, fields =>
    if pos < 3 then none -- IPv4 address too short
    else some (fields.set 3 (val % 256))
  | c :: rest, prev, val, pos, digLen, fields =>
    if 48 ≤ c ∧ c ≤ 57 then
      if digLen = 1 ∧ val = 0 then none -- IPv4 field has octet with leading zero
      else
        let val := val * 10 + c - 48
        let digLen := digLen + 1
        if val > 255 then none -- IPv4 field has value >255
        else parseIPv4FieldsLoop rest (some c) val pos digLen fields
    else if c = 46 then
      if prev = none ∨ rest = [] ∨ prev = some 46 then
        none -- IPv4 field must have at least one digit
      else if pos = 3 then none -- IPv4 address too long
      else parseIPv4FieldsLoop rest (some c) 0 (pos + 1) 0 (fields.set pos (val % 256))
    else none -- unexpected character

/-- Go `netip.parseIPv4Fields`: the four octets of a dotted quad. -/
def parseIPv4Fields (s : GoString) : Option (List Nat) :=
  parseIPv4FieldsLoop s none 0 0 0 [0, 0, 0, 0]

/-- Go `netip.parseIPv4`, followed by `As16`. -/
def parseIPv4 (s : GoString) : Option Addr :=
  match parseIPv4Fields s with
  | none => none
  | some fields => some ⟨v4InV6Prefix ++ fields, []⟩

/-- Value of a hexadecimal digit byte, `none` for any other byte.
Bytes: `'0'..'9'` = 48..57, `'a'..'f'` = 97..102, `'A'..'F'` = 65..70. -/
def hexDigit (c : Nat) : Option Nat :=
  if 48 ≤ c ∧ c ≤ 57 then some (c - 48)
  else if 97 ≤ c ∧ c ≤ 102 then some (c - 97 + 10)
  else if 65 ≤ c ∧ c ≤ 70 then some (c - 65 + 10)
  else none

/-- The inner loop of Go `netip.parseIPv6` reading one hexadecimal group:
returns `(off, acc)` at the first byte that is not a hex digit, `none` on the
two errors.  `acc` is a `uint32`. -/
def hexLoop : GoString → Nat → Nat → Option (Nat × Nat)
  | [], off, acc => some (off, acc)
  | c :: rest, off, acc =>
    match hexDigit c with
    | none => some (off, acc)
    | some d =>
      let acc := ((acc <<< 4) + d) % 2 ^ 32
      if off > 3 then none -- each group must have 4 or less digits
      else if acc > 0xffff then none -- IPv6 field has value >=2^16
      else hexLoop rest (off + 1) acc

/-- `for j := i - 1; j >= ellipsis; j-- { ip[j+n] = ip[j] }`, with `cnt`
iterations left (`j = e + cnt - 1`). -/
def expandLoop (n e : Nat) : Nat → List Nat → List Nat
  | 0, ip => ip
  | cnt + 1, ip => expandLoop n e cnt (ip.set (e + cnt + n) (ip.getD (e + cnt) 0))

/-- Go `clear(ip[lo : lo+cnt])`. -/
def clearLoop (lo : Nat) : Nat → List Nat → List Nat
  | 0, ip => ip
  | cnt + 1, ip => clearLoop lo cnt (ip.set (lo + cnt) 0)

/-- The part of Go `netip.parseIPv6` after its main loop. -/
def parseIPv6Finish (s : GoString) (i : Nat) (ellipsis : Option Nat) (ip : List Nat) :
    Option (List Nat) :=
  -- Must have used entire string.
  if s.length ≠ 0 then none -- trailing garbage after address
  else if i < 16 then
    -- If didn't parse enough, expand ellipsis.
    match ellipsis with
    | none => none -- address string too short
    | some e =>
      let n := 16 - i
      some (clearLoop e n (expandLoop n e (i - e) ip))
  else if ellipsis.isSome then
    none -- the :: must expand to at least one field of zeros
  else some ip

/-- The main loop `for i < 16 { ... }` of Go `netip.parseIPv6`.  Each iteration
that does not leave the loop adds 2 to `i`; the first argument bounds the
number of iterations (8 suffice from `i = 0`, see `parseIPv6Loop_fuel`).
Bytes: `':'` = 58, `'.'` = 46. -/
def parseIPv6Loop :
    Nat → GoString → Nat → Option Nat → List Nat → Option (List Nat)
  | 0, s, i, ellipsis, ip => parseIPv6Finish s i ellipsis ip
  | fuel + 1, s, i, ellipsis, ip =>
    if ¬ i < 16 then parseIPv6Finish s i ellipsis ip
    else
      match hexLoop s 0 0 with
      | none => none
      | some (off, acc) =>
        if off = 0 then
          none -- each colon-separated field must have at least one digit
        else if s.get? off = some 46 then
          -- If followed by dot, might be in trailing IPv4.
          if ellipsis = none ∧ i ≠ 12 then none -- not the right place
          else if i + 4 > 16 then none -- not enough room
          else
            match parseIPv4Fields s with
            | none => none
            | some f =>
              let ip := (((ip.set i (f.getD 0 0)).set (i + 1) (f.getD 1 0)).set
                (i + 2) (f.getD 2 0)).set (i + 3) (f.getD 3 0)
              parseIPv6Finish [] (i + 4) ellipsis ip
        else
          -- Save this 16-bit chunk.
          let ip := (ip.set i ((acc >>> 8) % 256)).set (i + 1) (acc % 256)
          let i := i + 2
          -- Stop at end of string.
          let s := s.drop off
          if s.length = 0 then parseIPv6Finish s i ellipsis ip
          -- Otherwise must be followed by colon and more.
          else if s.head? ≠ some 58 then none -- unexpected character, want colon
          else if s.length = 1 then none -- colon must be followed by more characters
          else
            let s := s.drop 1
            -- Look for ellipsis.
            if s.head? = some 58 then
              if ellipsis.isSome then none -- multiple :: in address
              else
                let ellipsis := some i
                let s := s.drop 1
                if s.length = 0 then parseIPv6Finish s i ellipsis ip -- can be at end
                else parseIPv6Loop fuel s i ellipsis ip
            else parseIPv6Loop fuel s i ellipsis ip

/-- Go `netip.parseIPv6` after the zone has been split off: `s` is the text of
the address and `zone` the zone (empty when there is none). -/
def parseIPv6Body (s zone : GoString) : Option Addr :=
  let ip : List Nat := List.replicate 16 0
  -- Might have leading ellipsis
  if s.length ≥ 2 ∧ s.get? 0 = some 58 ∧ s.get? 1 = some 58 then
    let s := s.drop 2
    -- Might be only ellipsis
    if s.length = 0 then some ⟨List.replicate 16 0, zone⟩
    else
      match parseIPv6Loop 8 s 0 (some 0) ip with
      | none => none
      | some ip => some ⟨ip, zone⟩
  else
    match parseIPv6Loop 8 s 0 none ip with
    | none => none
    | some ip => some ⟨ip, zone⟩

/-- Go `netip.parseIPv6`.  Byte `'%'` = 37. -/
def parseIPv6 (input : GoString) : Option Addr :=
  -- Split off the zone right from the start.
  match indexByte input 37 with
  | none => parseIPv6Body input []
  | some i =>
    if input.drop (i + 1) = [] then none -- zone must be a non-empty string
    else parseIPv6Body (input.take i) (input.drop (i + 1))

/-- The scan of Go `netip.ParseAddr` for the first `'.'`, `':'` or `'%'`; `s`
is the whole string and the first argument what is left to scan. -/
def parseAddrScan : GoString → GoString → Option Addr
  | [], _ => none -- unable to parse IP
  | c :: rest, s =>
    if c = 46 then parseIPv4 s
    else if c = 58 then parseIPv6 s
    else if c = 37 then none -- missing IPv6 address
    else parseAddrScan rest s

/-- Go `netip.ParseAddr`. -/
def ParseAddr (s : GoString) : Option Addr := parseAddrScan s s

/-- Go `net.ParseIP`: the 16-byte form of the address written in `s`, `none`
(Go `nil`) when `s` is not a valid textual IP address or carries a zone. -/
def ParseIP (s : GoString) : Option IP :=
  match ParseAddr s with
  | none => none
  | some addr => if addr.zone ≠ [] then none else some addr.as16

/-! ## `safedialer.go` -/

/-- Errors that may be returned from `Control`. -/
inductive GoError where
  | ErrInvalidAddress
  | ErrInvalidIP
  | ErrUnsafeIP
  | ErrUnsafeNetwork
  | ErrUnsafePort
deriving DecidableEq, Repr

open GoError

/-- The text of each error (`errors.New(...)`). -/
def GoError.Error : GoError → String
  | ErrInvalidAddress => "invalid host/port pair in address"
  | ErrInvalidIP => "invalid IP address"
  | ErrUnsafeIP => "unsafe IP address"
  | ErrUnsafeNetwork => "unsafe network type"
  | ErrUnsafePort => "unsafe port number"

/-- Source `ipv4Net`. -/
def ipv4Net (a b c d : Nat) (subnetPrefixLen : Int) : IPNet :=
  { IP := IPv4 a b c d
    Mask := CIDRMask (96 + subnetPrefixLen) 128 }

/-- Source `reservedIPv4Nets`. -/
def reservedIPv4Nets : List IPNet := [
  ipv4Net 0 0 0 0 8,       -- Current network
  ipv4Net 10 0 0 0 8,      -- Private
  ipv4Net 100 64 0 0 10,   -- RFC6598
  ipv4Net 127 0 0 0 8,     -- Loopback
  ipv4Net 169 254 0 0 16,  -- Link-local
  ipv4Net 172 16 0 0 12,   -- Private
  ipv4Net 192 0 0 0 24,    -- RFC6890
  ipv4Net 192 0 2 0 24,    -- Test, doc, examples
  ipv4Net 192 88 99 0 24,  -- IPv6 to IPv4 relay
  ipv4Net 192 168 0 0 16,  -- Private
  ipv4Net 198 18 0 0 15,   -- Benchmarking tests
  ipv4Net 198 51 100 0 24, -- Test, doc, examples
  ipv4Net 203 0 113 0 24,  -- Test, doc, examples
  ipv4Net 224 0 0 0 4,     -- Multicast
  ipv4Net 240 0 0 0 4      -- Reserved (includes broadcast / 255.255.255.255)
]

/-- Source `globalUnicastIPv6Net`. -/
def globalUnicastIPv6Net : IPNet :=
  { IP := [0x20, 0, 0, 0, 0, 0, 0, 0, 0, 0, 0, 0, 0, 0, 0, 0]
    Mask := CIDRMask 3 128 }

/-- Source `isIPv6GlobalUnicast`. -/
def isIPv6GlobalUnicast (address : IP) : Bool :=
  globalUnicastIPv6Net.Contains address

/-- The `for ... range` loop of source `isIPv4Reserved` over the table. -/
def isIPv4ReservedLoop (address : IP) : List IPNet → Bool
  | [] => false
  | reservedNet :: nets =>
    if reservedNet.Contains address then true
    else isIPv4ReservedLoop address nets

/-- Source `isIPv4Reserved`. -/
def isIPv4Reserved (address : IP) : Bool :=
  isIPv4ReservedLoop address reservedIPv4Nets

/-- Source `isPublicIPAddress`. -/
def isPublicIPAddress (address : IP) : Bool :=
  if (To4 address).isSome then !isIPv4Reserved address
  else isIPv6GlobalUnicast address

/-- Source `Control`: permits only TCP connections to port 80 and 443 on
public IP addresses.  The third argument is the `syscall.RawConn`, of a type
the embedding leaves abstract. -/
def Control {RawConn : Type} (network : GoString) (address : GoString) (_ : RawConn) :
    Option GoError :=
  if ¬ (network = str "tcp4" ∨ network = str "tcp6") then some ErrUnsafeNetwork
  else
    match SplitHostPort address with
    | none => some ErrInvalidAddress
    | some (host, port) =>
      if ¬ (port = str "80" ∨ port = str "443") then some ErrUnsafePort
      else
        match ParseIP host with
        | none => some ErrInvalidIP
        | some ipaddress =>
          if ¬ isPublicIPAddress ipaddress then some ErrUnsafeIP
          else none

/-! ## `safedialer.go` with its package-level variables as explicit state

The definitions above read the tables of `safedialer.go` as constants.  In Go
they are package-level `var`s, which code of the package could assign, and
`Control` receives a connection handle.  The definitions of this section embed
the same functions once more with the variables passed in and handed back, and
with a handle that has content, so that what a call reads and writes can be
stated. -/

/-- Go `syscall.RawConn`, an interface over a raw network connection, reduced
to the file descriptor that its methods hand to their callbacks. -/
structure SyscallRawConn where
  fd : Nat
deriving DecidableEq, Repr

/-- The package-level variables of `safedialer.go`: the five errors and the
two tables. -/
structure PackageVars where
  ErrInvalidAddress : GoError
  ErrInvalidIP : GoError
  ErrUnsafeIP : GoError
  ErrUnsafeNetwork : GoError
  ErrUnsafePort : GoError
  reservedIPv4Nets : List IPNet
  globalUnicastIPv6Net : IPNet
deriving DecidableEq

/-- The values the package-level variables are initialised with. -/
def initialVars : PackageVars :=
  { ErrInvalidAddress := GoError.ErrInvalidAddress
    ErrInvalidIP := GoError.ErrInvalidIP
    ErrUnsafeIP := GoError.ErrUnsafeIP
    ErrUnsafeNetwork := GoError.ErrUnsafeNetwork
    ErrUnsafePort := GoError.ErrUnsafePort
    reservedIPv4Nets := reservedIPv4Nets
    globalUnicastIPv6Net := globalUnicastIPv6Net }

/-- Source `isIPv6GlobalUnicast`, on explicit package variables. -/
def isIPv6GlobalUnicastS (vars : PackageVars) (address : IP) : Bool × PackageVars :=
  (vars.globalUnicastIPv6Net.Contains address, vars)

/-- Source `isIPv4Reserved`, on explicit package variables. -/
def isIPv4ReservedS (vars : PackageVars) (address : IP) : Bool × PackageVars :=
  (isIPv4ReservedLoop address vars.reservedIPv4Nets, vars)

/-- Source `isPublicIPAddress`, on explicit package variables. -/
def isPublicIPAddressS (vars : PackageVars) (address : IP) : Bool × PackageVars :=
  if (To4 address).isSome then
    match isIPv4ReservedS vars address with
    | (reserved, vars) => (!reserved, vars)
  else isIPv6GlobalUnicastS vars address

/-- Source `Control`, on explicit package variables: the result of the call
and the variables after it. -/
def ControlS (vars : PackageVars) (network : GoString) (address : GoString)
    (_ : SyscallRawConn) : Option GoError × PackageVars :=
  if ¬ (network = str "tcp4" ∨ network = str "tcp6") then (some vars.ErrUnsafeNetwork, vars)
  else
    match SplitHostPort address with
    | none => (some vars.ErrInvalidAddress, vars)
    | some (host, port) =>
      if ¬ (port = str "80" ∨ port = str "443") then (some vars.ErrUnsafePort, vars)
      else
        match ParseIP host with
        | none => (some vars.ErrInvalidIP, vars)
        | some ipaddress =>
          match isPublicIPAddressS vars ipaddress with
          | (isPublic, vars) =>
            if ¬ isPublic then (some vars.ErrUnsafeIP, vars)
            else (none, vars)

/-- A sequence of calls of `Control`, each on the variables the call before it
left: the results, and the variables after the last call. -/
def runCalls : PackageVars → List (GoString × GoString × SyscallRawConn) →
    List (Option GoError) × PackageVars
  | vars, [] => ([], vars)
  | vars, (network, address, c) :: rest =>
    match ControlS vars network address c with
    | (result, vars) =>
      match runCalls vars rest with
      | (results, vars) => (result :: results, vars)

/-! ## Vocabulary of the specification -/

/-- The decimal text of an octet, without leading zeros (`'0'` is 48). -/
def octet (n : Nat) : GoString :=
  if n < 10 then [48 + n]
  else if n < 100 then [48 + n / 10, 48 + n % 10]
  else [48 + n / 100, 48 + n / 10 % 10, 48 + n % 10]

/-- The dotted-quad text `a.b.c.d` of an IPv4 address (`'.'` is 46). -/
def dottedQuad (a b c d : Nat) : GoString :=
  octet a ++ 46 :: (octet b ++ 46 :: (octet c ++ 46 :: octet d))

/-- The 32-bit value of the IPv4 address `a.b.c.d`. -/
def ipv4Value (a b c d : Nat) : Nat := a * 2 ^ 24 + b * 2 ^ 16 + c * 2 ^ 8 + d

/-- Membership of the 32-bit value `x` in the CIDR block `base/len`: the top
`len` bits of `x` are those of `base`. -/
def inBlock (base len x : Nat) : Prop := x / 2 ^ (32 - len) = base / 2 ^ (32 - len)

instance (base len x : Nat) : Decidable (inBlock base len x) :=
  inferInstanceAs (Decidable (x / 2 ^ (32 - len) = base / 2 ^ (32 - len)))

/-- The 15 reserved IPv4 blocks named by the specification, as
(base address, length) pairs. -/
def reservedBlocks : List (Nat × Nat) := [
  (ipv4Value 0 0 0 0, 8),
  (ipv4Value 10 0 0 0, 8),
  (ipv4Value 100 64 0 0, 10),
  (ipv4Value 127 0 0 0, 8),
  (ipv4Value 169 254 0 0, 16),
  (ipv4Value 172 16 0 0, 12),
  (ipv4Value 192 0 0 0, 24),
  (ipv4Value 192 0 2 0, 24),
  (ipv4Value 192 88 99 0, 24),
  (ipv4Value 192 168 0 0, 16),
  (ipv4Value 198 18 0 0, 15),
  (ipv4Value 198 51 100 0, 24),
  (ipv4Value 203 0 113 0, 24),
  (ipv4Value 224 0 0 0, 4),
  (ipv4Value 240 0 0 0, 4)]

/-- The address `a.b.c.d` lies inside one of the 15 reserved blocks. -/
def inReservedBlocks (a b c d : Nat) : Prop :=
  ∃ blk ∈ reservedBlocks, inBlock blk.1 blk.2 (ipv4Value a b c d)

instance (a b c d : Nat) : Decidable (inReservedBlocks a b c d) :=
  inferInstanceAs
    (Decidable (∃ blk ∈ reservedBlocks, inBlock blk.1 blk.2 (ipv4Value a b c d)))

/-! ## Auxiliary functions of the proofs -/

/-- The effect of a run of decimal digits on `val` and `digLen` in
`parseIPv4FieldsLoop`; `none` when the loop reports an error. -/
def digitRun : List Nat → Nat → Nat → Option (Nat × Nat)
  | [], val, digLen => some (val, digLen)
  | c :: ds, val, digLen =>
    if digLen = 1 ∧ val = 0 then none
    else if val * 10 + c - 48 > 255 then none
    else digitRun ds (val * 10 + c - 48) (digLen + 1)

/-- A decimal digit byte. -/
def isDigitByte (c : Nat) : Prop := 48 ≤ c ∧ c ≤ 57

instance (c : Nat) : Decidable (isDigitByte c) :=
  inferInstanceAs (Decidable (48 ≤ c ∧ c ≤ 57))

/-- A byte that may occur in the text of an IP address without zone: a
hexadecimal digit, a dot or a colon. -/
def isAddrByte (c : Nat) : Prop := (hexDigit c).isSome = true ∨ c = 46 ∨ c = 58

instance (c : Nat) : Decidable (isAddrByte c) :=
  inferInstanceAs (Decidable ((hexDigit c).isSome = true ∨ c = 46 ∨ c = 58))

/-- A well-formed sequence of bytes: every entry is below 256. -/
def allBytes (l : List Nat) : Prop := ∀ b ∈ l, b < 256

instance (l : List Nat) : Decidable (allBytes l) :=
  inferInstanceAs (Decidable (∀ b ∈ l, b < 256))

/-- The base address of a network as a number: the bytes of its network number,
most significant first. -/
def netBase (net : IPNet) : Nat :=
  (networkNumberAndMask net).1.foldl (fun acc b => acc * 256 + b) 0

/-- A well-formed CIDR block of `bits` bits (32 or 128) and length `n`: `n` is
in `[0, bits]`, the mask is the CIDR mask of `n` ones, the base has one byte
per byte of the mask, and its host bits are zero (base AND mask = base). -/
def wellFormedBlock (nn m : List Nat) (bits n : Nat) : Prop :=
  n ≤ bits ∧ m = cidrMaskLoop (bits / 8) n ∧ nn.length = bits / 8 ∧
    List.zipWith (fun x y => x &&& y) nn m = nn

instance (nn m : List Nat) (bits n : Nat) : Decidable (wellFormedBlock nn m bits n) :=
  inferInstanceAs (Decidable (n ≤ bits ∧ m = cidrMaskLoop (bits / 8) n ∧
    nn.length = bits / 8 ∧ List.zipWith (fun x y => x &&& y) nn m = nn))


/-! ## Facts about the byte searches -/

theorem indexByte_eq_none_iff (s : GoString) (c : Nat) :
    indexByte s c = none ↔ c ∉ s := by
  induction s with
  | nil => simp [indexByte]
  | cons x xs ih =>
    by_cases h : x = c
    · simp [indexByte, h]
    · have h2 : ¬ c = x := fun e => h e.symm
      cases hi : indexByte xs c with
      | none => simp [indexByte, h, h2, hi, ← ih]
      | some i =>
        have : ¬ (c ∉ xs) := fun hn => by simp [(ih.mpr hn)] at hi
        simp [indexByte, h, hi]
        intro _; simpa using this

theorem lastIndexByte_eq_none_iff (s : GoString) (c : Nat) :
    lastIndexByte s c = none ↔ c ∉ s := by
  induction s with
  | nil => simp [lastIndexByte]
  | cons x xs ih =>
    cases hi : lastIndexByte xs c with
    | none =>
      have hn := ih.mp hi
      by_cases h : x = c
      · simp [lastIndexByte, hi, h]
      · have h2 : ¬ c = x := fun e => h e.symm
        simp [lastIndexByte, hi, h, h2, hn]
    | some i =>
      have : ¬ (c ∉ xs) := fun hn => by simp [(ih.mpr hn)] at hi
      simp [lastIndexByte, hi]
      intro _; simpa using this

theorem indexByte_append_cons (xs ys : GoString) (c : Nat) (h : c ∉ xs) :
    indexByte (xs ++ c :: ys) c = some xs.length := by
  induction xs with
  | nil => simp [indexByte]
  | cons x xs ih =>
    have hx : ¬ x = c := fun e => h (by simp [e])
    have hxs : c ∉ xs := fun e => h (by simp [e])
    simp [indexByte, hx, ih hxs]

theorem lastIndexByte_append_cons (xs ys : GoString) (c : Nat) (h : c ∉ ys) :
    lastIndexByte (xs ++ c :: ys) c = some xs.length := by
  induction xs with
  | nil => simp [lastIndexByte, (lastIndexByte_eq_none_iff ys c).mpr h]
  | cons x xs ih => simp [lastIndexByte, ih]

theorem indexByte_eq_some (s : GoString) (c i : Nat) (h : indexByte s c = some i) :
    s = s.take i ++ c :: s.drop (i + 1) ∧ c ∉ s.take i := by
  induction s generalizing i with
  | nil => simp [indexByte] at h
  | cons x xs ih =>
    by_cases hx : x = c
    · simp [indexByte, hx] at h
      subst h; simp [hx]
    · cases hi : indexByte xs c with
      | none => simp [indexByte, hx, hi] at h
      | some k =>
        simp [indexByte, hx, hi] at h
        subst h
        obtain ⟨h1, h2⟩ := ih k hi
        have hx2 : ¬ c = x := fun e => hx e.symm
        refine ⟨?_, ?_⟩
        · simpa using h1
        · simpa [hx2] using h2

theorem lastIndexByte_eq_some (s : GoString) (c i : Nat) (h : lastIndexByte s c = some i) :
    s = s.take i ++ c :: s.drop (i + 1) ∧ c ∉ s.drop (i + 1) := by
  induction s generalizing i with
  | nil => simp [lastIndexByte] at h
  | cons x xs ih =>
    cases hi : lastIndexByte xs c with
    | none =>
      have hn := (lastIndexByte_eq_none_iff xs c).mp hi
      by_cases hx : x = c
      · simp [lastIndexByte, hi, hx] at h
        subst h; simp [hx, hn]
      · simp [lastIndexByte, hi, hx] at h
    | some k =>
      simp [lastIndexByte, hi] at h
      subst h
      obtain ⟨h1, h2⟩ := ih k hi
      refine ⟨?_, ?_⟩
      · simpa using h1
      · simpa using h2

theorem indexByte_drop (s : GoString) (c i : Nat) (h : indexByte s c = some i) :
    s.drop i = c :: s.drop (i + 1) := by
  induction s generalizing i with
  | nil => simp [indexByte] at h
  | cons x xs ih =>
    by_cases hx : x = c
    · simp [indexByte, hx] at h
      subst h; simp [hx]
    · cases hi : indexByte xs c with
      | none => simp [indexByte, hx, hi] at h
      | some k =>
        simp [indexByte, hx, hi] at h
        subst h
        simpa using ih k hi

theorem lastIndexByte_drop (s : GoString) (c i : Nat) (h : lastIndexByte s c = some i) :
    s.drop i = c :: s.drop (i + 1) := by
  induction s generalizing i with
  | nil => simp [lastIndexByte] at h
  | cons x xs ih =>
    cases hi : lastIndexByte xs c with
    | none =>
      by_cases hx : x = c
      · simp [lastIndexByte, hi, hx] at h
        subst h; simp [hx]
      · simp [lastIndexByte, hi, hx] at h
    | some k =>
      simp [lastIndexByte, hi] at h
      subst h
      simpa using ih k hi


/-! ## Specification of `SplitHostPort` -/

theorem SplitHostPort_plain (host port : GoString)
    (h1 : 58 ∉ host) (h2 : 91 ∉ host) (h3 : 93 ∉ host)
    (p1 : 58 ∉ port) (p2 : 91 ∉ port) (p3 : 93 ∉ port) :
    SplitHostPort (host ++ 58 :: port) = some (host, port) := by
  have hhead : ¬ (host ++ 58 :: port).head? = some 91 := by
    cases host with
    | nil => simp
    | cons x xs =>
      intro e
      simp at e
      exact h2 (by simp [e])
  have hi1 : indexByte host 58 = none := (indexByte_eq_none_iff _ _).mpr h1
  have hi2 : indexByte (host ++ 58 :: port) 91 = none :=
    (indexByte_eq_none_iff _ _).mpr (by simp [h2, p2])
  have hi3 : indexByte (host ++ 58 :: port) 93 = none :=
    (indexByte_eq_none_iff _ _).mpr (by simp [h3, p3])
  unfold SplitHostPort
  rw [lastIndexByte_append_cons host port 58 p1]
  simp only [if_neg hhead]
  simp [splitHostPortTail, hi1, hi2, hi3]

theorem SplitHostPort_bracketed (host port : GoString)
    (h2 : 91 ∉ host) (h3 : 93 ∉ host)
    (p1 : 58 ∉ port) (p2 : 91 ∉ port) (p3 : 93 ∉ port) :
    SplitHostPort (91 :: (host ++ 93 :: 58 :: port)) = some (host, port) := by
  have hlast : lastIndexByte (91 :: (host ++ 93 :: 58 :: port)) 58 = some (host.length + 2) := by
    have := lastIndexByte_append_cons (91 :: (host ++ [93])) port 58 p1
    simpa using this
  have hfirst : indexByte (91 :: (host ++ 93 :: 58 :: port)) 93 = some (host.length + 1) := by
    have := indexByte_append_cons (91 :: host) (58 :: port) 93 (by simp [h3])
    simpa using this
  have hi2 : indexByte (host ++ 93 :: 58 :: port) 91 = none :=
    (indexByte_eq_none_iff _ _).mpr (by simp [h2, p2])
  have hi3 : indexByte (58 :: port) 93 = none :=
    (indexByte_eq_none_iff _ _).mpr (by simp [p3])
  unfold SplitHostPort
  rw [hlast]
  simp [splitHostPortTail, hfirst, hi2, hi3]

theorem splitHostPortTail_eq_some (address host h port : GoString) (i j k : Nat)
    (hs : splitHostPortTail address i h j k = some (host, port)) :
    host = h ∧ port = address.drop (i + 1) ∧ 91 ∉ address.drop j ∧ 93 ∉ address.drop k := by
  unfold splitHostPortTail at hs
  cases c3 : indexByte (address.drop j) 91 with
  | some x => simp [c3] at hs
  | none =>
    cases c4 : indexByte (address.drop k) 93 with
    | some x => simp [c3, c4] at hs
    | none =>
      simp [c3, c4] at hs
      exact ⟨hs.1.symm, hs.2.symm, (indexByte_eq_none_iff _ _).mp c3,
        (indexByte_eq_none_iff _ _).mp c4⟩

theorem SplitHostPort_eq_some (address host port : GoString)
    (h : SplitHostPort address = some (host, port)) :
    58 ∉ port ∧ 91 ∉ port ∧ 93 ∉ port ∧
    ((address = host ++ 58 :: port ∧ 58 ∉ host ∧ 91 ∉ host ∧ 93 ∉ host) ∨
     (address = 91 :: (host ++ 93 :: 58 :: port) ∧ 91 ∉ host ∧ 93 ∉ host)) := by
  unfold SplitHostPort at h
  cases hl : lastIndexByte address 58 with
  | none => simp [hl] at h
  | some i =>
    obtain ⟨hdec, hport⟩ := lastIndexByte_eq_some address 58 i hl
    simp only [hl] at h
    by_cases hb : address.head? = some 91
    · simp only [hb, if_true] at h
      cases he : indexByte address 93 with
      | none => simp [he] at h
      | some e =>
        obtain ⟨hdec2, hhost⟩ := indexByte_eq_some address 93 e he
        simp only [he] at h
        by_cases c1 : e + 1 = address.length
        · simp [c1] at h
        · by_cases c2 : e + 1 = i
          · subst c2
            simp only [c1, if_true, if_false] at h
            obtain ⟨e1, e2, e3, e4⟩ := splitHostPortTail_eq_some _ _ _ _ _ _ _ h
            have d1 := indexByte_drop address 93 e he
            have d2 := lastIndexByte_drop address 58 (e + 1) hl
            cases address with
            | nil => simp at hb
            | cons a rest =>
              simp at hb
              subst hb
              cases e with
              | zero => simp at d1
              | succ e' =>
                simp only [List.drop_succ_cons, List.take_succ_cons, List.drop_zero] at *
                subst e1 e2
                rw [d2] at d1 e4
                have hr : rest = List.take e' rest ++ 93 :: 58 :: List.drop (e' + 2) rest := by
                  conv_lhs => rw [← List.take_append_drop e' rest, d1]
                have m93 : 93 ∉ List.take e' rest := fun hm => hhost (by simp [hm])
                have m91 : 91 ∉ List.take e' rest := fun hm => e3 (List.mem_of_mem_take hm)
                have q91 : 91 ∉ List.drop (e' + 2) rest := fun hm => e3 (List.mem_of_mem_drop hm)
                have q93 : 93 ∉ List.drop (e' + 2) rest := fun hm => e4 (by simp [hm])
                refine ⟨hport, q91, q93, Or.inr ⟨?_, m91, m93⟩⟩
                rw [← hr]
          · by_cases c3 : address.get? (e + 1) = some 58 <;> simp [c1, c2, c3] at h
    · simp only [if_neg hb] at h
      cases c1 : indexByte (address.take i) 58 with
      | some x => simp [c1] at h
      | none =>
        simp [c1] at h
        obtain ⟨e1, e2, e3, e4⟩ := splitHostPortTail_eq_some _ _ _ _ _ _ _ h
        have c1' := (indexByte_eq_none_iff _ _).mp c1
        simp only [List.drop_zero] at e3 e4
        subst e1 e2
        refine ⟨hport, ?_, ?_, Or.inl ⟨hdec, c1', ?_, ?_⟩⟩
        · exact fun hm => e3 (List.mem_of_mem_drop hm)
        · exact fun hm => e4 (List.mem_of_mem_drop hm)
        · exact fun hm => e3 (List.mem_of_mem_take hm)
        · exact fun hm => e4 (List.mem_of_mem_take hm)

/-! ## The reserved IPv4 table on IPv4 addresses -/

set_option maxRecDepth 100000 in
theorem octet_eq_repr : ∀ n, n < 256 → octet n = str (Nat.repr n) := by decide

set_option maxRecDepth 100000 in
theorem land_255 : ∀ a, a < 256 → a &&& 255 = a := by decide

set_option maxRecDepth 100000 in
theorem land_254 : ∀ a, a < 256 → a &&& 254 = a / 2 * 2 := by decide

set_option maxRecDepth 100000 in
theorem land_240 : ∀ a, a < 256 → a &&& 240 = a / 16 * 16 := by decide

set_option maxRecDepth 100000 in
theorem land_192 : ∀ a, a < 256 → a &&& 192 = a / 64 * 64 := by decide

set_option maxRecDepth 100000 in
theorem land_224 : ∀ a, a < 256 → a &&& 224 = a / 32 * 32 := by decide

theorem IPv4_eq (a b c d : Nat) (ha : a < 256) (hb : b < 256) (hc : c < 256) (hd : d < 256) :
    IPv4 a b c d = v4InV6Prefix ++ [a, b, c, d] := by
  simp [IPv4, Nat.mod_eq_of_lt ha, Nat.mod_eq_of_lt hb, Nat.mod_eq_of_lt hc,
    Nat.mod_eq_of_lt hd]

theorem To4_mapped (a b c d : Nat) : To4 (v4InV6Prefix ++ [a, b, c, d]) = some [a, b, c, d] := by
  simp [To4, v4InV6Prefix, IPv4len, IPv6len, isZeros]

theorem Contains_mapped (n : IPNet) (nn m : List Nat) (h : networkNumberAndMask n = (nn, m))
    (a b c d : Nat) :
    n.Contains (v4InV6Prefix ++ [a, b, c, d]) =
      if 4 ≠ nn.length then false else containsLoop nn m [a, b, c, d] 4 4 0 := by
  simp [IPNet.Contains, h, To4_mapped]

/-- The table test on an IPv4 address, byte by byte. -/
theorem isIPv4Reserved_mapped (a b c d : Nat)
    (ha : a < 256) (hb : b < 256) (hc : c < 256) :
    isIPv4Reserved (v4InV6Prefix ++ [a, b, c, d]) = true ↔
      a = 0 ∨ a = 10 ∨ (a = 100 ∧ b / 64 = 1) ∨ a = 127 ∨ (a = 169 ∧ b = 254) ∨
      (a = 172 ∧ b / 16 = 1) ∨ (a = 192 ∧ b = 0 ∧ c = 0) ∨ (a = 192 ∧ b = 0 ∧ c = 2) ∨
      (a = 192 ∧ b = 88 ∧ c = 99) ∨ (a = 192 ∧ b = 168) ∨ (a = 198 ∧ b / 2 = 9) ∨
      (a = 198 ∧ b = 51 ∧ c = 100) ∨ (a = 203 ∧ b = 0 ∧ c = 113) ∨ a / 16 = 14 ∨
      a / 16 = 15 := by
  have n1 : networkNumberAndMask (ipv4Net 0 0 0 0 8) = ([0, 0, 0, 0], [255, 0, 0, 0]) := by
    decide
  have n2 : networkNumberAndMask (ipv4Net 10 0 0 0 8) = ([10, 0, 0, 0], [255, 0, 0, 0]) := by
    decide
  have n3 : networkNumberAndMask (ipv4Net 100 64 0 0 10) =
      ([100, 64, 0, 0], [255, 192, 0, 0]) := by decide
  have n4 : networkNumberAndMask (ipv4Net 127 0 0 0 8) = ([127, 0, 0, 0], [255, 0, 0, 0]) := by
    decide
  have n5 : networkNumberAndMask (ipv4Net 169 254 0 0 16) =
      ([169, 254, 0, 0], [255, 255, 0, 0]) := by decide
  have n6 : networkNumberAndMask (ipv4Net 172 16 0 0 12) =
      ([172, 16, 0, 0], [255, 240, 0, 0]) := by decide
  have n7 : networkNumberAndMask (ipv4Net 192 0 0 0 24) =
      ([192, 0, 0, 0], [255, 255, 255, 0]) := by decide
  have n8 : networkNumberAndMask (ipv4Net 192 0 2 0 24) =
      ([192, 0, 2, 0], [255, 255, 255, 0]) := by decide
  have n9 : networkNumberAndMask (ipv4Net 192 88 99 0 24) =
      ([192, 88, 99, 0], [255, 255, 255, 0]) := by decide
  have n10 : networkNumberAndMask (ipv4Net 192 168 0 0 16) =
      ([192, 168, 0, 0], [255, 255, 0, 0]) := by decide
  have n11 : networkNumberAndMask (ipv4Net 198 18 0 0 15) =
      ([198, 18, 0, 0], [255, 254, 0, 0]) := by decide
  have n12 : networkNumberAndMask (ipv4Net 198 51 100 0 24) =
      ([198, 51, 100, 0], [255, 255, 255, 0]) := by decide
  have n13 : networkNumberAndMask (ipv4Net 203 0 113 0 24) =
      ([203, 0, 113, 0], [255, 255, 255, 0]) := by decide
  have n14 : networkNumberAndMask (ipv4Net 224 0 0 0 4) = ([224, 0, 0, 0], [240, 0, 0, 0]) := by
    decide
  have n15 : networkNumberAndMask (ipv4Net 240 0 0 0 4) = ([240, 0, 0, 0], [240, 0, 0, 0]) := by
    decide
  simp only [isIPv4Reserved, reservedIPv4Nets, isIPv4ReservedLoop,
    Contains_mapped _ _ _ n1, Contains_mapped _ _ _ n2, Contains_mapped _ _ _ n3,
    Contains_mapped _ _ _ n4, Contains_mapped _ _ _ n5, Contains_mapped _ _ _ n6,
    Contains_mapped _ _ _ n7, Contains_mapped _ _ _ n8, Contains_mapped _ _ _ n9,
    Contains_mapped _ _ _ n10, Contains_mapped _ _ _ n11, Contains_mapped _ _ _ n12,
    Contains_mapped _ _ _ n13, Contains_mapped _ _ _ n14, Contains_mapped _ _ _ n15]
  have k : ∀ x, x < 256 → x &&& 255 = x := land_255
  simp only [containsLoop, List.getD_cons_zero, List.getD_cons_succ, land_255 a ha,
    land_255 b hb, land_255 c hc, land_254 b hb, land_240 a ha, land_240 b hb, land_192 b hb,
    k 10 (by omega), k 100 (by omega), k 127 (by omega), k 169 (by omega), k 254 (by omega),
    k 172 (by omega), k 192 (by omega), k 2 (by omega), k 88 (by omega), k 99 (by omega),
    k 168 (by omega), k 198 (by omega), k 51 (by omega), k 203 (by omega), k 113 (by omega),
    k 0 (by omega),
    land_192 64 (by omega), land_240 16 (by omega), land_254 18 (by omega),
    land_240 224 (by omega), land_240 240 (by omega), Nat.and_zero, Nat.reduceDiv,
    Nat.reduceMul, Nat.reduceLT, Nat.reduceAdd, ne_eq, not_true_eq_false, if_false, if_true,
    List.length_cons, List.length_nil, Nat.lt_irrefl, OfNat.ofNat_ne_zero,
    decide_eq_true_eq, Bool.if_false_left, Bool.if_true_left, Bool.not_eq_true,
    Bool.and_eq_true, Bool.or_eq_true, Bool.not_eq_true', decide_eq_false_iff_not, not_not,
    ite_not, reduceIte, Bool.decide_eq_true, ite_eq_left_iff, Bool.false_eq_true,
    imp_false, Bool.ite_eq_true_distrib, if_true_left, not_and, Classical.not_imp,
    if_false_right, or_false]
  repeat' apply or_congr
  all_goals (constructor <;> intro h <;> omega)

/-- Membership in the 15 blocks of the specification, byte by byte. -/
theorem inReservedBlocks_iff (a b c d : Nat)
    (hb : b < 256) (hc : c < 256) (hd : d < 256) :
    inReservedBlocks a b c d ↔
      a = 0 ∨ a = 10 ∨ (a = 100 ∧ b / 64 = 1) ∨ a = 127 ∨ (a = 169 ∧ b = 254) ∨
      (a = 172 ∧ b / 16 = 1) ∨ (a = 192 ∧ b = 0 ∧ c = 0) ∨ (a = 192 ∧ b = 0 ∧ c = 2) ∨
      (a = 192 ∧ b = 88 ∧ c = 99) ∨ (a = 192 ∧ b = 168) ∨ (a = 198 ∧ b / 2 = 9) ∨
      (a = 198 ∧ b = 51 ∧ c = 100) ∨ (a = 203 ∧ b = 0 ∧ c = 113) ∨ a / 16 = 14 ∨
      a / 16 = 15 := by
  simp only [inReservedBlocks, reservedBlocks, inBlock, ipv4Value, List.mem_cons,
    List.mem_singleton, exists_eq_or_imp, exists_eq_left, List.not_mem_nil, false_and,
    exists_false, or_false]
  simp only [Nat.reducePow, Nat.reduceSub, Nat.reduceMul, Nat.reduceAdd, Nat.reduceDiv]
  repeat' apply or_congr
  all_goals (constructor <;> intro h <;> omega)

/-! ## `ParseIP` on dotted quads -/

set_option maxRecDepth 100000 in
theorem octet_digits : ∀ n, n < 256 → ∀ x ∈ octet n, isDigitByte x := by decide

set_option maxRecDepth 100000 in
theorem digitRun_octet : ∀ n, n < 256 → digitRun (octet n) 0 0 = some (n, (octet n).length) := by
  decide

set_option maxRecDepth 100000 in
theorem octet_length : ∀ n, n < 256 → 1 ≤ (octet n).length ∧ (octet n).length ≤ 3 := by
  decide

theorem parseIPv4FieldsLoop_digits_dot (ds rest : GoString) (hds : ∀ x ∈ ds, isDigitByte x)
    (hrest : rest ≠ []) (prev : Option Nat) (val pos digLen : Nat) (fields : List Nat)
    (hpos : pos ≠ 3) (hprev : ds ≠ [] ∨ ∃ p, prev = some p ∧ p ≠ 46) :
    parseIPv4FieldsLoop (ds ++ 46 :: rest) prev val pos digLen fields =
      match digitRun ds val digLen with
      | none => none
      | some (v, _) =>
        parseIPv4FieldsLoop rest (some 46) 0 (pos + 1) 0 (fields.set pos (v % 256)) := by
  induction ds generalizing prev val digLen with
  | nil =>
    obtain h | ⟨p, hp, hp46⟩ := hprev
    · exact absurd rfl h
    · subst hp
      simp [parseIPv4FieldsLoop, digitRun, hrest, hpos, hp46]
  | cons c ds ih =>
    have hc : isDigitByte c := hds c (by simp)
    have hc' : 48 ≤ c ∧ c ≤ 57 := hc
    have hds' : ∀ x ∈ ds, isDigitByte x := fun x hx => hds x (by simp [hx])
    have hc46 : c ≠ 46 := by omega
    have := ih hds' (some c) (val * 10 + c - 48) (digLen + 1) (Or.inr ⟨c, rfl, hc46⟩)
    simp only [List.cons_append, parseIPv4FieldsLoop, digitRun, hc', and_self, if_true]
    by_cases h1 : digLen = 1 ∧ val = 0
    · simp [h1]
    · by_cases h2 : val * 10 + c - 48 > 255
      · simp [h1, h2]
      · simp only [h1, h2, if_false]
        exact this

theorem parseIPv4FieldsLoop_digits_end (ds : GoString) (hds : ∀ x ∈ ds, isDigitByte x)
    (prev : Option Nat) (val pos digLen : Nat) (fields : List Nat) (hpos : ¬ pos < 3) :
    parseIPv4FieldsLoop ds prev val pos digLen fields =
      match digitRun ds val digLen with
      | none => none
      | some (v, _) => some (fields.set 3 (v % 256)) := by
  induction ds generalizing prev val digLen with
  | nil => simp [parseIPv4FieldsLoop, digitRun, hpos]
  | cons c ds ih =>
    have hc : isDigitByte c := hds c (by simp)
    have hc' : 48 ≤ c ∧ c ≤ 57 := hc
    have hds' : ∀ x ∈ ds, isDigitByte x := fun x hx => hds x (by simp [hx])
    have := ih hds' (some c) (val * 10 + c - 48) (digLen + 1)
    simp only [parseIPv4FieldsLoop, digitRun, hc', and_self, if_true]
    by_cases h1 : digLen = 1 ∧ val = 0
    · simp [h1]
    · by_cases h2 : val * 10 + c - 48 > 255
      · simp [h1, h2]
      · simp only [h1, h2, if_false]
        exact this

theorem octet_ne_nil (n : Nat) : octet n ≠ [] := by
  unfold octet
  split
  · simp
  · split <;> simp

/-- The four octets of a dotted quad are read back. -/
theorem parseIPv4Fields_dottedQuad (a b c d : Nat)
    (ha : a < 256) (hb : b < 256) (hc : c < 256) (hd : d < 256) :
    parseIPv4Fields (dottedQuad a b c d) = some [a, b, c, d] := by
  unfold parseIPv4Fields dottedQuad
  rw [parseIPv4FieldsLoop_digits_dot _ _ (octet_digits a ha) (by simp) _ _ _ _ _ (by omega)
    (Or.inl (octet_ne_nil a)), digitRun_octet a ha]
  simp only []
  rw [parseIPv4FieldsLoop_digits_dot _ _ (octet_digits b hb) (by simp) _ _ _ _ _ (by omega)
    (Or.inl (octet_ne_nil b)), digitRun_octet b hb]
  simp only []
  rw [parseIPv4FieldsLoop_digits_dot _ _ (octet_digits c hc) (octet_ne_nil d) _ _ _ _ _ (by omega)
    (Or.inl (octet_ne_nil c)), digitRun_octet c hc]
  simp only []
  rw [parseIPv4FieldsLoop_digits_end _ (octet_digits d hd) _ _ _ _ _ (by omega),
    digitRun_octet d hd]
  simp [Nat.mod_eq_of_lt ha, Nat.mod_eq_of_lt hb, Nat.mod_eq_of_lt hc, Nat.mod_eq_of_lt hd]

theorem parseAddrScan_digits_dot (ds rest s : GoString) (hds : ∀ x ∈ ds, isDigitByte x) :
    parseAddrScan (ds ++ 46 :: rest) s = parseIPv4 s := by
  induction ds with
  | nil => simp [parseAddrScan]
  | cons c ds ih =>
    have hc : 48 ≤ c ∧ c ≤ 57 := hds c (by simp)
    have h1 : c ≠ 46 := by omega
    have h2 : c ≠ 58 := by omega
    have h3 : c ≠ 37 := by omega
    simp only [List.cons_append, parseAddrScan, h1, h2, h3, if_false]
    exact ih (fun x hx => hds x (by simp [hx]))

/-- `ParseIP` reads the dotted quad `a.b.c.d` as the 16-byte form of that
address. -/
theorem ParseIP_dottedQuad (a b c d : Nat)
    (ha : a < 256) (hb : b < 256) (hc : c < 256) (hd : d < 256) :
    ParseIP (dottedQuad a b c d) = some (v4InV6Prefix ++ [a, b, c, d]) := by
  have h : ParseAddr (dottedQuad a b c d) = some ⟨v4InV6Prefix ++ [a, b, c, d], []⟩ := by
    unfold ParseAddr
    conv_lhs => arg 1; unfold dottedQuad
    rw [parseAddrScan_digits_dot _ _ _ (octet_digits a ha)]
    simp [parseIPv4, parseIPv4Fields_dottedQuad a b c d ha hb hc hd]
  simp [ParseIP, h]

/-- No byte of a dotted quad is a colon or a bracket. -/
theorem dottedQuad_bytes (a b c d : Nat)
    (ha : a < 256) (hb : b < 256) (hc : c < 256) (hd : d < 256) :
    ∀ x ∈ dottedQuad a b c d, isDigitByte x ∨ x = 46 := by
  intro x hx
  simp only [dottedQuad, List.mem_append, List.mem_cons] at hx
  rcases hx with h | h | h | h | h | h | h
  · exact Or.inl (octet_digits a ha x h)
  · exact Or.inr h
  · exact Or.inl (octet_digits b hb x h)
  · exact Or.inr h
  · exact Or.inl (octet_digits c hc x h)
  · exact Or.inr h
  · exact Or.inl (octet_digits d hd x h)

theorem dottedQuad_clean (a b c d : Nat)
    (ha : a < 256) (hb : b < 256) (hc : c < 256) (hd : d < 256) :
    58 ∉ dottedQuad a b c d ∧ 91 ∉ dottedQuad a b c d ∧ 93 ∉ dottedQuad a b c d ∧
      37 ∉ dottedQuad a b c d := by
  have h := dottedQuad_bytes a b c d ha hb hc hd
  refine ⟨fun hm => ?_, fun hm => ?_, fun hm => ?_, fun hm => ?_⟩ <;>
    · rcases h _ hm with h' | h'
      · have : 48 ≤ _ ∧ _ ≤ 57 := h'
        omega
      · omega

/-! ## `ParseIP` on IPv4-mapped literals `::ffff:a.b.c.d` -/

theorem hexLoop_digits (ds rest : GoString) (hds : ∀ x ∈ ds, isDigitByte x)
    (off acc : Nat) (hoff : off + ds.length ≤ 4) (hacc : acc < 16 ^ off) :
    ∃ acc', hexLoop (ds ++ 46 :: rest) off acc = some (off + ds.length, acc') := by
  induction ds generalizing off acc with
  | nil => exact ⟨acc, by simp [hexLoop, hexDigit]⟩
  | cons c ds ih =>
    have hc : 48 ≤ c ∧ c ≤ 57 := hds c (by simp)
    have hds' : ∀ x ∈ ds, isDigitByte x := fun x hx => hds x (by simp [hx])
    have hlen : off + 1 + ds.length ≤ 4 := by
      simp only [List.length_cons] at hoff
      omega
    have hoff3 : ¬ off > 3 := by omega
    have hd : hexDigit c = some (c - 48) := by simp [hexDigit, hc]
    have hacc' : (acc <<< 4) + (c - 48) < 16 ^ (off + 1) := by
      rw [Nat.shiftLeft_eq, pow_succ]
      omega
    have hsmall : (acc <<< 4) + (c - 48) < 2 ^ 32 := by
      have : 16 ^ (off + 1) ≤ 16 ^ 4 := Nat.pow_le_pow_right (by omega) (by omega)
      omega
    have h16 : ¬ (acc <<< 4) + (c - 48) > 0xffff := by
      have : 16 ^ (off + 1) ≤ 16 ^ 4 := Nat.pow_le_pow_right (by omega) (by omega)
      omega
    obtain ⟨acc', h⟩ := ih hds' (off + 1) ((acc <<< 4) + (c - 48)) hlen hacc'
    refine ⟨acc', ?_⟩
    have h' : hexLoop (ds ++ 46 :: rest) (off + 1) ((acc <<< 4) + (c - 48)) =
        some (off + (c :: ds).length, acc') := by
      rw [h]
      simp only [List.length_cons]
      congr 2
      omega
    simp only [List.cons_append, hexLoop, hd, Nat.mod_eq_of_lt hsmall, hoff3, h16, if_false]
    exact h'

theorem hexLoop_dottedQuad (a b c d : Nat) (ha : a < 256) :
    ∃ acc, hexLoop (dottedQuad a b c d) 0 0 = some ((octet a).length, acc) := by
  obtain ⟨acc, h⟩ := hexLoop_digits (octet a) (octet b ++ 46 :: (octet c ++ 46 :: octet d))
    (octet_digits a ha) 0 0 (by have := (octet_length a ha).2; omega) (by omega)
  exact ⟨acc, by simpa [dottedQuad] using h⟩

theorem getElem?_append_cons_length (xs ys : List Nat) (c : Nat) :
    (xs ++ c :: ys)[xs.length]? = some c := by
  induction xs with
  | nil => simp
  | cons x xs ih => simpa using ih

theorem dottedQuad_get_dot (a b c d : Nat) :
    (dottedQuad a b c d)[(octet a).length]? = some 46 := by
  unfold dottedQuad
  exact getElem?_append_cons_length _ _ _

theorem dottedQuad_head (a b c d : Nat) (ha : a < 256) :
    ∃ x rest, dottedQuad a b c d = x :: rest ∧ isDigitByte x := by
  have hne := octet_ne_nil a
  have hd := octet_digits a ha
  cases ho : octet a with
  | nil => exact absurd ho hne
  | cons x xs =>
    refine ⟨x, xs ++ 46 :: (octet b ++ 46 :: (octet c ++ 46 :: octet d)), ?_, ?_⟩
    · simp [dottedQuad, ho]
    · exact hd x (by simp [ho])

/-- One step of the loop: the dotted quad ends the literal. -/
theorem parseIPv6Loop_dottedQuad (fuel : Nat) (a b c d : Nat)
    (ha : a < 256) (hb : b < 256) (hc : c < 256) (hd : d < 256) (ip : List Nat) :
    parseIPv6Loop (fuel + 1) (dottedQuad a b c d) 2 (some 0) ip =
      parseIPv6Finish [] 6 (some 0) ((((ip.set 2 a).set 3 b).set 4 c).set 5 d) := by
  obtain ⟨acc, hacc⟩ := hexLoop_dottedQuad a b c d ha
  have hoff : (octet a).length ≠ 0 := by have := (octet_length a ha).1; omega
  simp [parseIPv6Loop, hacc, hoff, dottedQuad_get_dot,
    parseIPv4Fields_dottedQuad a b c d ha hb hc hd]

/-- One step of the loop: the group `ffff` followed by a colon. -/
theorem parseIPv6Loop_ffff (fuel : Nat) (x : Nat) (t : GoString) (hx : x ≠ 58) :
    parseIPv6Loop (fuel + 1) (102 :: 102 :: 102 :: 102 :: 58 :: x :: t) 0 (some 0)
        (List.replicate 16 0) =
      parseIPv6Loop fuel (x :: t) 2 (some 0)
        [255, 255, 0, 0, 0, 0, 0, 0, 0, 0, 0, 0, 0, 0, 0, 0] := by
  have h : hexLoop (102 :: 102 :: 102 :: 102 :: 58 :: x :: t) 0 0 = some (4, 65535) := by
    simp [hexLoop, hexDigit]
  have hrep : List.replicate 16 0 = [0, 0, 0, 0, 0, 0, 0, 0, 0, 0, 0, 0, 0, 0, 0, 0] := by
    decide
  rw [parseIPv6Loop, hrep]
  simp [h, hx]

/-- `ParseIP` reads `::ffff:a.b.c.d` as the 16-byte form of `a.b.c.d`. -/
theorem ParseIP_mapped (a b c d : Nat)
    (ha : a < 256) (hb : b < 256) (hc : c < 256) (hd : d < 256) :
    ParseIP (str "::ffff:" ++ dottedQuad a b c d) = some (v4InV6Prefix ++ [a, b, c, d]) := by
  obtain ⟨x, t, hq, hx⟩ := dottedQuad_head a b c d ha
  have hx' : 48 ≤ x ∧ x ≤ 57 := hx
  have hx58 : x ≠ 58 := by omega
  have h37 : 37 ∉ dottedQuad a b c d := (dottedQuad_clean a b c d ha hb hc hd).2.2.2
  have hstr : str "::ffff:" = [58, 58, 102, 102, 102, 102, 58] := by decide
  have hidx : indexByte (58 :: 58 :: 102 :: 102 :: 102 :: 102 :: 58 :: dottedQuad a b c d) 37
      = none := (indexByte_eq_none_iff _ _).mpr (by simp [h37])
  have hloop : parseIPv6Loop 8 (102 :: 102 :: 102 :: 102 :: 58 :: dottedQuad a b c d) 0
      (some 0) (List.replicate 16 0) = some (v4InV6Prefix ++ [a, b, c, d]) := by
    rw [hq, parseIPv6Loop_ffff 7 x t hx58, ← hq,
      parseIPv6Loop_dottedQuad 6 a b c d ha hb hc hd]
    simp [parseIPv6Finish, expandLoop, clearLoop, v4InV6Prefix]
  have h : ParseAddr (str "::ffff:" ++ dottedQuad a b c d) =
      some ⟨v4InV6Prefix ++ [a, b, c, d], []⟩ := by
    rw [hstr]
    simp only [ParseAddr, List.cons_append, List.nil_append, parseAddrScan, parseIPv6, hidx,
      parseIPv6Body]
    simp only [List.length_cons, List.drop_succ_cons, List.drop_zero]
    rw [hloop]
    simp
  simp [ParseIP, h]

/-! ## Invariants of the parser: the bytes it accepts and the bytes it returns -/

theorem isAddrByte_of_digit (c : Nat) (h : isDigitByte c ∨ c = 46) : isAddrByte c := by
  rcases h with h | h
  · have h' : 48 ≤ c ∧ c ≤ 57 := h
    exact Or.inl (by simp [hexDigit, h'])
  · exact Or.inr (Or.inl h)

theorem parseIPv4FieldsLoop_bytes (rest : GoString) (prev : Option Nat)
    (val pos digLen : Nat) (fields f : List Nat)
    (h : parseIPv4FieldsLoop rest prev val pos digLen fields = some f) :
    ∀ c ∈ rest, isDigitByte c ∨ c = 46 := by
  induction rest generalizing prev val pos digLen fields with
  | nil => simp
  | cons c rest ih =>
    intro x hx
    unfold parseIPv4FieldsLoop at h
    by_cases hc : 48 ≤ c ∧ c ≤ 57
    · simp only [hc, and_self, if_true] at h
      by_cases h1 : digLen = 1 ∧ val = 0
      · simp [h1] at h
      · by_cases h2 : val * 10 + c - 48 > 255
        · simp [h1, h2] at h
        · simp only [h1, h2, if_false] at h
          rcases List.mem_cons.mp hx with e | e
          · exact Or.inl (e ▸ hc)
          · exact ih _ _ _ _ _ h x e
    · by_cases hdot : c = 46
      · simp only [hc, hdot, if_false, if_true] at h
        by_cases h1 : prev = none ∨ rest = [] ∨ prev = some 46
        · simp [h1] at h
        · by_cases h2 : pos = 3
          · simp [h1, h2] at h
          · simp only [h1, h2, if_false] at h
            rcases List.mem_cons.mp hx with e | e
            · exact Or.inr (e ▸ hdot)
            · exact ih _ _ _ _ _ h x e
      · simp [hc, hdot] at h

theorem hexLoop_taken (s : GoString) (off acc off' acc' : Nat)
    (h : hexLoop s off acc = some (off', acc')) :
    off ≤ off' ∧ ∀ c ∈ s.take (off' - off), (hexDigit c).isSome = true := by
  induction s generalizing off acc with
  | nil =>
    simp [hexLoop] at h
    simp [h.1]
  | cons c s ih =>
    unfold hexLoop at h
    cases hd : hexDigit c with
    | none =>
      simp [hd] at h
      simp [h.1]
    | some d =>
      simp only [hd] at h
      by_cases h1 : off > 3
      · rw [if_pos h1] at h
        exact absurd h (by simp)
      · rw [if_neg h1] at h
        by_cases h2 : ((acc <<< 4) + d) % 2 ^ 32 > 0xffff
        · rw [if_pos h2] at h
          exact absurd h (by simp)
        · rw [if_neg h2] at h
          obtain ⟨hle, hall⟩ := ih _ _ h
          refine ⟨by omega, ?_⟩
          have e : off' - off = (off' - (off + 1)) + 1 := by omega
          rw [e, List.take_succ_cons]
          intro x hx
          rcases List.mem_cons.mp hx with e' | e'
          · rw [e', hd]; rfl
          · exact hall x e'

theorem parseIPv6Finish_eq_some (s : GoString) (i : Nat) (ellipsis : Option Nat)
    (ip r : List Nat) (h : parseIPv6Finish s i ellipsis ip = some r) : s = [] := by
  unfold parseIPv6Finish at h
  by_cases hs : s.length ≠ 0
  · rw [if_pos hs] at h
    exact absurd h (by simp)
  · simpa using hs

theorem forall_mem_of_take_drop (s : GoString) (n : Nat) (P : Nat → Prop)
    (h1 : ∀ c ∈ s.take n, P c) (h2 : ∀ c ∈ s.drop n, P c) : ∀ c ∈ s, P c := by
  intro c hc
  rw [← List.take_append_drop n s] at hc
  rcases List.mem_append.mp hc with h | h
  · exact h1 c h
  · exact h2 c h

theorem forall_mem_of_head (s : GoString) (c : Nat) (P : Nat → Prop)
    (h : s.head? = some c) (hc : P c) (hrest : ∀ x ∈ s.drop 1, P x) : ∀ x ∈ s, P x := by
  cases s with
  | nil => simp at h
  | cons y ys =>
    simp at h
    subst h
    intro x hx
    rcases List.mem_cons.mp hx with e | e
    · exact e ▸ hc
    · exact hrest x (by simpa using e)

theorem forall_mem_of_length_zero (s : GoString) (P : Nat → Prop) (h : s.length = 0) :
    ∀ x ∈ s, P x := by
  have : s = [] := List.length_eq_zero.mp h
  subst this
  simp

theorem parseIPv6Loop_bytes (fuel : Nat) (s : GoString) (i : Nat) (ellipsis : Option Nat)
    (ip r : List Nat) (h : parseIPv6Loop fuel s i ellipsis ip = some r) :
    ∀ c ∈ s, isAddrByte c := by
  induction fuel generalizing s i ellipsis ip with
  | zero =>
    unfold parseIPv6Loop at h
    rw [parseIPv6Finish_eq_some _ _ _ _ _ h]
    simp
  | succ fuel ih =>
    unfold parseIPv6Loop at h
    by_cases hi : ¬ i < 16
    · rw [if_pos hi] at h
      rw [parseIPv6Finish_eq_some _ _ _ _ _ h]
      simp
    · rw [if_neg hi] at h
      cases hh : hexLoop s 0 0 with
      | none =>
        rw [hh] at h
        exact absurd h (by simp)
      | some oa =>
        obtain ⟨off, acc⟩ := oa
        rw [hh] at h
        dsimp only at h
        have htake : ∀ c ∈ s.take off, isAddrByte c := by
          intro c hc
          have := (hexLoop_taken s 0 0 off acc hh).2 c (by simpa using hc)
          exact Or.inl this
        by_cases h0 : off = 0
        · rw [if_pos h0] at h
          exact absurd h (by simp)
        · rw [if_neg h0] at h
          by_cases hdot : s.get? off = some 46
          · rw [if_pos hdot] at h
            by_cases c1 : ellipsis = none ∧ i ≠ 12
            · rw [if_pos c1] at h
              exact absurd h (by simp)
            · rw [if_neg c1] at h
              by_cases c2 : i + 4 > 16
              · rw [if_pos c2] at h
                exact absurd h (by simp)
              · rw [if_neg c2] at h
                cases hf : parseIPv4Fields s with
                | none =>
                  rw [hf] at h
                  exact absurd h (by simp)
                | some f =>
                  intro c hc
                  exact isAddrByte_of_digit c
                    (parseIPv4FieldsLoop_bytes _ _ _ _ _ _ _ hf c hc)
          · rw [if_neg hdot] at h
            refine forall_mem_of_take_drop s off isAddrByte htake ?_
            by_cases c1 : (s.drop off).length = 0
            · exact forall_mem_of_length_zero _ isAddrByte c1
            · rw [if_neg c1] at h
              by_cases c2 : (s.drop off).head? ≠ some 58
              · rw [if_pos c2] at h
                exact absurd h (by simp)
              · rw [if_neg c2] at h
                have c2' : (s.drop off).head? = some 58 := by simpa using c2
                by_cases c3 : (s.drop off).length = 1
                · rw [if_pos c3] at h
                  exact absurd h (by simp)
                · rw [if_neg c3] at h
                  refine forall_mem_of_head _ 58 isAddrByte c2' (Or.inr (Or.inr rfl)) ?_
                  by_cases c4 : ((s.drop off).drop 1).head? = some 58
                  · rw [if_pos c4] at h
                    by_cases c5 : ellipsis.isSome = true
                    · rw [if_pos c5] at h
                      exact absurd h (by simp)
                    · rw [if_neg c5] at h
                      refine forall_mem_of_head _ 58 isAddrByte c4 (Or.inr (Or.inr rfl)) ?_
                      by_cases c6 : (((s.drop off).drop 1).drop 1).length = 0
                      · exact forall_mem_of_length_zero _ isAddrByte c6
                      · rw [if_neg c6] at h
                        exact ih _ _ _ _ h
                  · rw [if_neg c4] at h
                    exact ih _ _ _ _ h

theorem parseIPv6Body_zone (s zone : GoString) (addr : Addr)
    (h : parseIPv6Body s zone = some addr) : addr.zone = zone := by
  unfold parseIPv6Body at h
  dsimp only at h
  split at h
  · split at h
    · simp only [Option.some.injEq] at h
      rw [← h]
    · split at h
      · exact absurd h (by simp)
      · simp only [Option.some.injEq] at h
        rw [← h]
  · split at h
    · exact absurd h (by simp)
    · simp only [Option.some.injEq] at h
      rw [← h]

theorem parseIPv6Body_bytes (input zone : GoString) (addr : Addr)
    (h : parseIPv6Body input zone = some addr) : ∀ c ∈ input, isAddrByte c := by
  unfold parseIPv6Body at h
  dsimp only at h
  by_cases hl : input.length ≥ 2 ∧ input.get? 0 = some 58 ∧ input.get? 1 = some 58
  · rw [if_pos hl] at h
    obtain ⟨_, g0, g1⟩ := hl
    cases input with
    | nil => simp at g0
    | cons x xs =>
      cases xs with
      | nil => simp at g1
      | cons y ys =>
        simp at g0 g1
        subst g0 g1
        simp only [List.drop_succ_cons, List.drop_zero] at h
        intro c hc
        rcases List.mem_cons.mp hc with e | hc
        · exact Or.inr (Or.inr e)
        · rcases List.mem_cons.mp hc with e | hc
          · exact Or.inr (Or.inr e)
          · by_cases hy : ys.length = 0
            · exact forall_mem_of_length_zero _ isAddrByte hy c hc
            · rw [if_neg hy] at h
              cases hp : parseIPv6Loop 8 ys 0 (some 0) (List.replicate 16 0) with
              | none =>
                rw [hp] at h
                exact absurd h (by simp)
              | some ip => exact parseIPv6Loop_bytes _ _ _ _ _ _ hp c hc
  · rw [if_neg hl] at h
    cases hp : parseIPv6Loop 8 input 0 none (List.replicate 16 0) with
    | none =>
      rw [hp] at h
      exact absurd h (by simp)
    | some ip => exact parseIPv6Loop_bytes _ _ _ _ _ _ hp

theorem parseIPv6_bytes (input : GoString) (addr : Addr) (h : parseIPv6 input = some addr)
    (hz : addr.zone = []) : ∀ c ∈ input, isAddrByte c := by
  unfold parseIPv6 at h
  cases hidx : indexByte input 37 with
  | some k =>
    rw [hidx] at h
    dsimp only at h
    by_cases hd : input.drop (k + 1) = []
    · rw [if_pos hd] at h
      exact absurd h (by simp)
    · rw [if_neg hd] at h
      have := parseIPv6Body_zone _ _ _ h
      rw [hz] at this
      exact absurd this.symm hd
  | none =>
    rw [hidx] at h
    exact parseIPv6Body_bytes _ _ _ h

theorem parseIPv4_bytes (s : GoString) (addr : Addr) (h : parseIPv4 s = some addr) :
    ∀ c ∈ s, isAddrByte c := by
  unfold parseIPv4 at h
  cases hf : parseIPv4Fields s with
  | none =>
    rw [hf] at h
    exact absurd h (by simp)
  | some f =>
    intro c hc
    exact isAddrByte_of_digit c (parseIPv4FieldsLoop_bytes _ _ _ _ _ _ _ hf c hc)

theorem parseAddrScan_bytes (rest s : GoString) (addr : Addr)
    (h : parseAddrScan rest s = some addr) (hz : addr.zone = []) :
    ∀ c ∈ s, isAddrByte c := by
  induction rest with
  | nil => simp [parseAddrScan] at h
  | cons c rest ih =>
    unfold parseAddrScan at h
    by_cases h1 : c = 46
    · rw [if_pos h1] at h
      exact parseIPv4_bytes s addr h
    · rw [if_neg h1] at h
      by_cases h2 : c = 58
      · rw [if_pos h2] at h
        exact parseIPv6_bytes s addr h hz
      · rw [if_neg h2] at h
        by_cases h3 : c = 37
        · rw [if_pos h3] at h
          exact absurd h (by simp)
        · rw [if_neg h3] at h
          exact ih h

/-- Every byte of a string that `ParseIP` accepts is a hexadecimal digit, a
dot or a colon. -/
theorem ParseIP_bytes (s : GoString) (ip : IP) (h : ParseIP s = some ip) :
    ∀ c ∈ s, isAddrByte c := by
  unfold ParseIP at h
  cases ha : ParseAddr s with
  | none =>
    rw [ha] at h
    exact absurd h (by simp)
  | some addr =>
    rw [ha] at h
    dsimp only at h
    by_cases hz : addr.zone ≠ []
    · rw [if_pos hz] at h
      exact absurd h (by simp)
    · exact parseAddrScan_bytes s s addr ha (by simpa using hz)

/-- A string that `ParseIP` accepts holds no bracket. -/
theorem ParseIP_no_bracket (s : GoString) (ip : IP) (h : ParseIP s = some ip) :
    91 ∉ s ∧ 93 ∉ s := by
  have hb := ParseIP_bytes s ip h
  refine ⟨fun hm => ?_, fun hm => ?_⟩
  · have := hb 91 hm
    revert this
    decide
  · have := hb 93 hm
    revert this
    decide

theorem allBytes_set (l : List Nat) (i v : Nat) (hl : allBytes l) (hv : v < 256) :
    allBytes (l.set i v) := by
  intro b hb
  rcases List.mem_or_eq_of_mem_set hb with h | h
  · exact hl b h
  · exact h ▸ hv

theorem allBytes_getD (l : List Nat) (i : Nat) (hl : allBytes l) : l.getD i 0 < 256 := by
  by_cases h : i < l.length
  · rw [List.getD_eq_getElem l 0 h]
    exact hl _ (List.getElem_mem h)
  · rw [List.getD_eq_default l 0 (by omega)]
    omega

theorem expandLoop_wf (n e cnt : Nat) (ip : List Nat) (h : allBytes ip) :
    allBytes (expandLoop n e cnt ip) ∧ (expandLoop n e cnt ip).length = ip.length := by
  induction cnt generalizing ip with
  | zero => exact ⟨h, rfl⟩
  | succ cnt ih =>
    unfold expandLoop
    have := ih _ (allBytes_set ip (e + cnt + n) _ h (allBytes_getD ip (e + cnt) h))
    exact ⟨this.1, by rw [this.2]; simp⟩

theorem clearLoop_wf (lo cnt : Nat) (ip : List Nat) (h : allBytes ip) :
    allBytes (clearLoop lo cnt ip) ∧ (clearLoop lo cnt ip).length = ip.length := by
  induction cnt generalizing ip with
  | zero => exact ⟨h, rfl⟩
  | succ cnt ih =>
    unfold clearLoop
    have := ih _ (allBytes_set ip (lo + cnt) 0 h (by omega))
    exact ⟨this.1, by rw [this.2]; simp⟩

theorem parseIPv6Finish_wf (s : GoString) (i : Nat) (ellipsis : Option Nat)
    (ip r : List Nat) (h : parseIPv6Finish s i ellipsis ip = some r) (hip : allBytes ip) :
    allBytes r ∧ r.length = ip.length := by
  unfold parseIPv6Finish at h
  by_cases hs : s.length ≠ 0
  · rw [if_pos hs] at h
    exact absurd h (by simp)
  · rw [if_neg hs] at h
    by_cases hi : i < 16
    · rw [if_pos hi] at h
      cases ellipsis with
      | none => exact absurd h (by simp)
      | some e =>
        simp only [Option.some.injEq] at h
        subst h
        have h1 := expandLoop_wf (16 - i) e (i - e) ip hip
        have h2 := clearLoop_wf e (16 - i) _ h1.1
        exact ⟨h2.1, by rw [h2.2, h1.2]⟩
    · rw [if_neg hi] at h
      by_cases he : ellipsis.isSome = true
      · rw [if_pos he] at h
        exact absurd h (by simp)
      · rw [if_neg he] at h
        simp only [Option.some.injEq] at h
        subst h
        exact ⟨hip, rfl⟩

theorem parseIPv4FieldsLoop_wf (rest : GoString) (prev : Option Nat)
    (val pos digLen : Nat) (fields f : List Nat)
    (h : parseIPv4FieldsLoop rest prev val pos digLen fields = some f)
    (hf : allBytes fields) : allBytes f ∧ f.length = fields.length := by
  induction rest generalizing prev val pos digLen fields with
  | nil =>
    unfold parseIPv4FieldsLoop at h
    by_cases hp : pos < 3
    · rw [if_pos hp] at h
      exact absurd h (by simp)
    · rw [if_neg hp] at h
      simp only [Option.some.injEq] at h
      subst h
      exact ⟨allBytes_set _ _ _ hf (Nat.mod_lt _ (by omega)), by simp⟩
  | cons c rest ih =>
    unfold parseIPv4FieldsLoop at h
    by_cases hc : 48 ≤ c ∧ c ≤ 57
    · rw [if_pos hc] at h
      by_cases h1 : digLen = 1 ∧ val = 0
      · rw [if_pos h1] at h
        exact absurd h (by simp)
      · rw [if_neg h1] at h
        dsimp only at h
        by_cases h2 : val * 10 + c - 48 > 255
        · rw [if_pos h2] at h
          exact absurd h (by simp)
        · rw [if_neg h2] at h
          exact ih _ _ _ _ _ h hf
    · rw [if_neg hc] at h
      by_cases hdot : c = 46
      · rw [if_pos hdot] at h
        by_cases h1 : prev = none ∨ rest = [] ∨ prev = some 46
        · rw [if_pos h1] at h
          exact absurd h (by simp)
        · rw [if_neg h1] at h
          by_cases h2 : pos = 3
          · rw [if_pos h2] at h
            exact absurd h (by simp)
          · rw [if_neg h2] at h
            have := ih _ _ _ _ _ h (allBytes_set _ pos _ hf (Nat.mod_lt _ (by omega)))
            exact ⟨this.1, by rw [this.2]; simp⟩
      · rw [if_neg hdot] at h
        exact absurd h (by simp)

theorem parseIPv6Loop_wf (fuel : Nat) (s : GoString) (i : Nat) (ellipsis : Option Nat)
    (ip r : List Nat) (h : parseIPv6Loop fuel s i ellipsis ip = some r) (hip : allBytes ip) :
    allBytes r ∧ r.length = ip.length := by
  induction fuel generalizing s i ellipsis ip with
  | zero =>
    unfold parseIPv6Loop at h
    exact parseIPv6Finish_wf _ _ _ _ _ h hip
  | succ fuel ih =>
    unfold parseIPv6Loop at h
    by_cases hi : ¬ i < 16
    · rw [if_pos hi] at h
      exact parseIPv6Finish_wf _ _ _ _ _ h hip
    · rw [if_neg hi] at h
      cases hh : hexLoop s 0 0 with
      | none =>
        rw [hh] at h
        exact absurd h (by simp)
      | some oa =>
        obtain ⟨off, acc⟩ := oa
        rw [hh] at h
        dsimp only at h
        have hip2 : allBytes ((ip.set i ((acc >>> 8) % 256)).set (i + 1) (acc % 256)) :=
          allBytes_set _ _ _ (allBytes_set _ _ _ hip (Nat.mod_lt _ (by omega)))
            (Nat.mod_lt _ (by omega))
        have hlen2 : ((ip.set i ((acc >>> 8) % 256)).set (i + 1) (acc % 256)).length =
            ip.length := by simp
        by_cases h0 : off = 0
        · rw [if_pos h0] at h
          exact absurd h (by simp)
        · rw [if_neg h0] at h
          by_cases hdot : s.get? off = some 46
          · rw [if_pos hdot] at h
            by_cases c1 : ellipsis = none ∧ i ≠ 12
            · rw [if_pos c1] at h
              exact absurd h (by simp)
            · rw [if_neg c1] at h
              by_cases c2 : i + 4 > 16
              · rw [if_pos c2] at h
                exact absurd h (by simp)
              · rw [if_neg c2] at h
                cases hf : parseIPv4Fields s with
                | none =>
                  rw [hf] at h
                  exact absurd h (by simp)
                | some f =>
                  rw [hf] at h
                  dsimp only at h
                  have hfb : allBytes f :=
                    (parseIPv4FieldsLoop_wf _ _ _ _ _ _ _ hf (by intro b hb; simp at hb; omega)).1
                  have := parseIPv6Finish_wf _ _ _ _ _ h
                    (allBytes_set _ _ _ (allBytes_set _ _ _ (allBytes_set _ _ _
                      (allBytes_set _ _ _ hip (allBytes_getD f 0 hfb))
                      (allBytes_getD f 1 hfb)) (allBytes_getD f 2 hfb))
                      (allBytes_getD f 3 hfb))
                  exact ⟨this.1, by rw [this.2]; simp⟩
          · rw [if_neg hdot] at h
            by_cases c1 : (s.drop off).length = 0
            · rw [if_pos c1] at h
              have := parseIPv6Finish_wf _ _ _ _ _ h hip2
              exact ⟨this.1, by rw [this.2, hlen2]⟩
            · rw [if_neg c1] at h
              by_cases c2 : (s.drop off).head? ≠ some 58
              · rw [if_pos c2] at h
                exact absurd h (by simp)
              · rw [if_neg c2] at h
                by_cases c3 : (s.drop off).length = 1
                · rw [if_pos c3] at h
                  exact absurd h (by simp)
                · rw [if_neg c3] at h
                  by_cases c4 : ((s.drop off).drop 1).head? = some 58
                  · rw [if_pos c4] at h
                    by_cases c5 : ellipsis.isSome = true
                    · rw [if_pos c5] at h
                      exact absurd h (by simp)
                    · rw [if_neg c5] at h
                      by_cases c6 : (((s.drop off).drop 1).drop 1).length = 0
                      · rw [if_pos c6] at h
                        have := parseIPv6Finish_wf _ _ _ _ _ h hip2
                        exact ⟨this.1, by rw [this.2, hlen2]⟩
                      · rw [if_neg c6] at h
                        have := ih _ _ _ _ h hip2
                        exact ⟨this.1, by rw [this.2, hlen2]⟩
                  · rw [if_neg c4] at h
                    have := ih _ _ _ _ h hip2
                    exact ⟨this.1, by rw [this.2, hlen2]⟩

theorem allBytes_replicate_zero (n : Nat) : allBytes (List.replicate n 0) := by
  intro b hb
  have := List.eq_of_mem_replicate hb
  omega

theorem parseIPv6Body_wf (s zone : GoString) (addr : Addr)
    (h : parseIPv6Body s zone = some addr) :
    allBytes addr.as16 ∧ addr.as16.length = 16 := by
  have key : ∀ (e : Option Nat) (s : GoString),
      (match parseIPv6Loop 8 s 0 e (List.replicate 16 0) with
        | none => none
        | some ip => some (⟨ip, zone⟩ : Addr)) = some addr →
      allBytes addr.as16 ∧ addr.as16.length = 16 := by
    intro e s hm
    cases hp : parseIPv6Loop 8 s 0 e (List.replicate 16 0) with
    | none =>
      rw [hp] at hm
      exact absurd hm (by simp)
    | some ip =>
      rw [hp] at hm
      simp only [Option.some.injEq] at hm
      subst hm
      have := parseIPv6Loop_wf _ _ _ _ _ _ hp (allBytes_replicate_zero 16)
      exact ⟨this.1, by rw [this.2]; simp⟩
  unfold parseIPv6Body at h
  dsimp only at h
  by_cases hl : s.length ≥ 2 ∧ s.get? 0 = some 58 ∧ s.get? 1 = some 58
  · rw [if_pos hl] at h
    by_cases hy : (s.drop 2).length = 0
    · rw [if_pos hy] at h
      simp only [Option.some.injEq] at h
      subst h
      exact ⟨allBytes_replicate_zero 16, by simp⟩
    · rw [if_neg hy] at h
      exact key _ _ h
  · rw [if_neg hl] at h
    exact key _ _ h

theorem parseIPv6_wf (input : GoString) (addr : Addr) (h : parseIPv6 input = some addr) :
    allBytes addr.as16 ∧ addr.as16.length = 16 := by
  unfold parseIPv6 at h
  cases hidx : indexByte input 37 with
  | some k =>
    rw [hidx] at h
    dsimp only at h
    by_cases hd : input.drop (k + 1) = []
    · rw [if_pos hd] at h
      exact absurd h (by simp)
    · rw [if_neg hd] at h
      exact parseIPv6Body_wf _ _ _ h
  | none =>
    rw [hidx] at h
    exact parseIPv6Body_wf _ _ _ h

theorem parseIPv4_wf (s : GoString) (addr : Addr) (h : parseIPv4 s = some addr) :
    allBytes addr.as16 ∧ addr.as16.length = 16 := by
  unfold parseIPv4 at h
  cases hf : parseIPv4Fields s with
  | none =>
    rw [hf] at h
    exact absurd h (by simp)
  | some f =>
    rw [hf] at h
    simp only [Option.some.injEq] at h
    subst h
    have := parseIPv4FieldsLoop_wf _ _ _ _ _ _ _ hf (by intro b hb; simp at hb; omega)
    refine ⟨?_, by simp [v4InV6Prefix, this.2]⟩
    intro b hb
    have hpre : ∀ b ∈ v4InV6Prefix, b < 256 := by decide
    rcases List.mem_append.mp hb with hb | hb
    · exact hpre b hb
    · exact this.1 b hb

theorem parseAddrScan_wf (rest s : GoString) (addr : Addr)
    (h : parseAddrScan rest s = some addr) :
    allBytes addr.as16 ∧ addr.as16.length = 16 := by
  induction rest with
  | nil => simp [parseAddrScan] at h
  | cons c rest ih =>
    unfold parseAddrScan at h
    by_cases h1 : c = 46
    · rw [if_pos h1] at h
      exact parseIPv4_wf s addr h
    · rw [if_neg h1] at h
      by_cases h2 : c = 58
      · rw [if_pos h2] at h
        exact parseIPv6_wf s addr h
      · rw [if_neg h2] at h
        by_cases h3 : c = 37
        · rw [if_pos h3] at h
          exact absurd h (by simp)
        · rw [if_neg h3] at h
          exact ih h

/-- `ParseIP` returns 16 bytes. -/
theorem ParseIP_wf (s : GoString) (ip : IP) (h : ParseIP s = some ip) :
    allBytes ip ∧ ip.length = 16 := by
  unfold ParseIP at h
  cases ha : ParseAddr s with
  | none =>
    rw [ha] at h
    exact absurd h (by simp)
  | some addr =>
    rw [ha] at h
    dsimp only at h
    by_cases hz : addr.zone ≠ []
    · rw [if_pos hz] at h
      exact absurd h (by simp)
    · rw [if_neg hz] at h
      simp only [Option.some.injEq] at h
      subst h
      exact parseAddrScan_wf s s addr ha

/-- The bound on the iterations of the loop of `parseIPv6` is never what ends
it: from `i` on, `(16 - i) / 2` iterations suffice, and more change nothing. -/
theorem parseIPv6Loop_fuel (fuel : Nat) (s : GoString) (i : Nat) (ellipsis : Option Nat)
    (ip : List Nat) (h : 16 ≤ i + 2 * fuel) :
    parseIPv6Loop (fuel + 1) s i ellipsis ip = parseIPv6Loop fuel s i ellipsis ip := by
  induction fuel generalizing s i ellipsis ip with
  | zero =>
    have hi : ¬ i < 16 := by omega
    conv_rhs => unfold parseIPv6Loop
    conv_lhs => unfold parseIPv6Loop
    rw [if_pos hi]
  | succ fuel ih =>
    have ih' : ∀ s e ip, parseIPv6Loop (fuel + 1) s (i + 2) e ip =
        parseIPv6Loop fuel s (i + 2) e ip := fun s e ip => ih s (i + 2) e ip (by omega)
    conv_lhs => unfold parseIPv6Loop
    conv_rhs => unfold parseIPv6Loop
    simp only [ih']

/-! ## `ipv4Net` and `Contains` for every length of the network part -/

set_option maxRecDepth 100000 in
theorem land_128 : ∀ a, a < 256 → a &&& 128 = a / 128 * 128 := by decide

set_option maxRecDepth 100000 in
theorem land_248 : ∀ a, a < 256 → a &&& 248 = a / 8 * 8 := by decide

set_option maxRecDepth 100000 in
theorem land_252 : ∀ a, a < 256 → a &&& 252 = a / 4 * 4 := by decide

set_option maxRecDepth 100000 in
theorem CIDRMask_v4 : ∀ n : Nat, n ≤ 32 →
    (CIDRMask (96 + (n : Int)) 128).length = 16 ∧
    (CIDRMask (96 + (n : Int)) 128).drop 12 = cidrMaskLoop 4 n := by
  decide

theorem To4_four (x0 x1 x2 x3 : Nat) : To4 [x0, x1, x2, x3] = some [x0, x1, x2, x3] := by
  simp [To4, IPv4len]

/-- The network number and mask that `Contains` derives from `ipv4Net`: the
four bytes of the base address and the 4-byte mask with `n` leading ones. -/
theorem networkNumberAndMask_ipv4Net (a b c d n : Nat)
    (ha : a < 256) (hb : b < 256) (hc : c < 256) (hd : d < 256) (hn : n ≤ 32) :
    networkNumberAndMask (ipv4Net a b c d (n : Int)) = ([a, b, c, d], cidrMaskLoop 4 n) := by
  obtain ⟨h1, h2⟩ := CIDRMask_v4 n hn
  simp [networkNumberAndMask, ipv4Net, IPv4_eq a b c d ha hb hc hd, To4_mapped, h1, h2,
    IPv4len, IPv6len]


theorem containsLoop_four (a b c d m0 m1 m2 m3 x0 x1 x2 x3 : Nat) :
    containsLoop [a, b, c, d] [m0, m1, m2, m3] [x0, x1, x2, x3] 4 4 0 = true ↔
      a &&& m0 = x0 &&& m0 ∧ b &&& m1 = x1 &&& m1 ∧ c &&& m2 = x2 &&& m2 ∧
        d &&& m3 = x3 &&& m3 := by
  simp only [containsLoop, List.getD_cons_zero, List.getD_cons_succ]
  simp

set_option maxHeartbeats 4000000 in
theorem masked_eq_iff_inBlock (a b c d x0 x1 x2 x3 n : Nat)
    (ha : a < 256) (hb : b < 256) (hc : c < 256) (hd : d < 256)
    (h0 : x0 < 256) (h1 : x1 < 256) (h2 : x2 < 256) (h3 : x3 < 256) (hn : n ≤ 32) :
    containsLoop [a, b, c, d] (cidrMaskLoop 4 n) [x0, x1, x2, x3] 4 4 0 = true ↔
      inBlock (ipv4Value a b c d) n (ipv4Value x0 x1 x2 x3) := by
  have l255 : ∀ x, x < 256 → x &&& 255 = x := land_255
  have l254 := land_254
  have l252 := land_252
  have l248 := land_248
  have l240 := land_240
  have l224 := land_224
  have l192 := land_192
  have l128 := land_128
  unfold inBlock ipv4Value
  by_cases hz : n = 0
  · subst hz
    refine iff_of_true ?_ ?_
    · simp [cidrMaskLoop, containsLoop_four]
    · simp only [Nat.reduceSub, Nat.reducePow]
      omega
  interval_cases n <;>
    simp only [cidrMaskLoop, containsLoop_four, ge_iff_le, Nat.reduceLeDiff, if_true, if_false,
      Nat.reduceSub, Nat.reduceShiftRight, Nat.and_zero, true_and, and_true, Nat.reducePow,
      l255 _ ha, l255 _ hb, l255 _ hc, l255 _ hd, l255 _ h0, l255 _ h1, l255 _ h2, l255 _ h3,
      l254 _ ha, l254 _ hb, l254 _ hc, l254 _ hd, l254 _ h0, l254 _ h1, l254 _ h2, l254 _ h3,
      l252 _ ha, l252 _ hb, l252 _ hc, l252 _ hd, l252 _ h0, l252 _ h1, l252 _ h2, l252 _ h3,
      l248 _ ha, l248 _ hb, l248 _ hc, l248 _ hd, l248 _ h0, l248 _ h1, l248 _ h2, l248 _ h3,
      l240 _ ha, l240 _ hb, l240 _ hc, l240 _ hd, l240 _ h0, l240 _ h1, l240 _ h2, l240 _ h3,
      l224 _ ha, l224 _ hb, l224 _ hc, l224 _ hd, l224 _ h0, l224 _ h1, l224 _ h2, l224 _ h3,
      l192 _ ha, l192 _ hb, l192 _ hc, l192 _ hd, l192 _ h0, l192 _ h1, l192 _ h2, l192 _ h3,
      l128 _ ha, l128 _ hb, l128 _ hc, l128 _ hd, l128 _ h0, l128 _ h1, l128 _ h2, l128 _ h3] <;>
    omega

theorem Contains_four_eq_mapped (net : IPNet) (x0 x1 x2 x3 : Nat) :
    net.Contains [x0, x1, x2, x3] = net.Contains (v4InV6Prefix ++ [x0, x1, x2, x3]) := by
  simp [IPNet.Contains, To4_four, To4_mapped]

theorem length_ne_four_of_To4_none (y : IP) (h : To4 y = none) : y.length ≠ 4 := by
  intro hl
  simp [To4, IPv4len, hl] at h

/-- A network whose number has four bytes contains no address that `To4`
rejects. -/
theorem Contains_of_To4_none (net : IPNet) (y : IP) (h : To4 y = none)
    (hnn : (networkNumberAndMask net).1.length = 4) : net.Contains y = false := by
  have hl := length_ne_four_of_To4_none y h
  cases hnm : networkNumberAndMask net with
  | mk nn m =>
    rw [hnm] at hnn
    simp only at hnn
    simp [IPNet.Contains, hnm, h, hnn, hl]

/-- `Contains` of `ipv4Net a b c d n` on a 4-byte address is the comparison of
the top `n` bits. -/
theorem ipv4Net_Contains_four (a b c d n x0 x1 x2 x3 : Nat)
    (ha : a < 256) (hb : b < 256) (hc : c < 256) (hd : d < 256)
    (h0 : x0 < 256) (h1 : x1 < 256) (h2 : x2 < 256) (h3 : x3 < 256) (hn : n ≤ 32) :
    (ipv4Net a b c d (n : Int)).Contains [x0, x1, x2, x3] = true ↔
      inBlock (ipv4Value a b c d) n (ipv4Value x0 x1 x2 x3) := by
  rw [← masked_eq_iff_inBlock a b c d x0 x1 x2 x3 n ha hb hc hd h0 h1 h2 h3 hn]
  simp [IPNet.Contains, networkNumberAndMask_ipv4Net a b c d n ha hb hc hd hn, To4_four]

theorem ipv4Net_Contains_eq (a b c d n x0 x1 x2 x3 : Nat)
    (ha : a < 256) (hb : b < 256) (hc : c < 256) (hd : d < 256)
    (h0 : x0 < 256) (h1 : x1 < 256) (h2 : x2 < 256) (h3 : x3 < 256) (hn : n ≤ 32) :
    (ipv4Net a b c d (n : Int)).Contains [x0, x1, x2, x3] =
      decide (inBlock (ipv4Value a b c d) n (ipv4Value x0 x1 x2 x3)) := by
  have h := ipv4Net_Contains_four a b c d n x0 x1 x2 x3 ha hb hc hd h0 h1 h2 h3 hn
  cases hc : (ipv4Net a b c d (n : Int)).Contains [x0, x1, x2, x3] with
  | true => exact (decide_eq_true (h.mp hc)).symm
  | false =>
    have : ¬ inBlock (ipv4Value a b c d) n (ipv4Value x0 x1 x2 x3) := fun hb' => by
      rw [h.mpr hb'] at hc
      exact absurd hc (by simp)
    exact (decide_eq_false this).symm

theorem isIPv4ReservedLoop_iff (x : IP) (nets : List IPNet) :
    isIPv4ReservedLoop x nets = true ↔ ∃ net ∈ nets, net.Contains x = true := by
  induction nets with
  | nil => simp [isIPv4ReservedLoop]
  | cons n ns ih =>
    unfold isIPv4ReservedLoop
    by_cases h : n.Contains x = true
    · simp [h]
    · simp [h, ih]

theorem isIPv4ReservedLoop_congr (x y : IP) (nets : List IPNet)
    (h : ∀ net ∈ nets, net.Contains x = net.Contains y) :
    isIPv4ReservedLoop x nets = isIPv4ReservedLoop y nets := by
  induction nets with
  | nil => rfl
  | cons n ns ih =>
    unfold isIPv4ReservedLoop
    rw [h n (by simp), ih (fun net hm => h net (by simp [hm]))]

theorem isIPv4Reserved_four (x0 x1 x2 x3 : Nat)
    (h0 : x0 < 256) (h1 : x1 < 256) (h2 : x2 < 256) (h3 : x3 < 256) :
    isIPv4Reserved [x0, x1, x2, x3] = true ↔ inReservedBlocks x0 x1 x2 x3 := by
  have e : isIPv4Reserved [x0, x1, x2, x3] = isIPv4Reserved (v4InV6Prefix ++ [x0, x1, x2, x3]) :=
    isIPv4ReservedLoop_congr _ _ _ (fun net _ => Contains_four_eq_mapped net x0 x1 x2 x3)
  rw [e, isIPv4Reserved_mapped x0 x1 x2 x3 h0 h1 h2, inReservedBlocks_iff x0 x1 x2 x3 h1 h2 h3]

theorem reserved_nets_four : ∀ net ∈ reservedIPv4Nets, (networkNumberAndMask net).1.length = 4 := by
  decide

theorem isIPv4Reserved_of_To4_none (y : IP) (h : To4 y = none) : isIPv4Reserved y = false := by
  cases hr : isIPv4Reserved y with
  | false => rfl
  | true =>
    obtain ⟨net, hm, hc⟩ := (isIPv4ReservedLoop_iff y reservedIPv4Nets).mp hr
    rw [Contains_of_To4_none net y h (reserved_nets_four net hm)] at hc
    exact absurd hc (by simp)


/-! ## The decision procedure of `Control` -/

theorem split_first_unique (xs ys xs' ys' : GoString) (c : Nat)
    (h : xs ++ c :: ys = xs' ++ c :: ys') (hx : c ∉ xs) (hx' : c ∉ xs') :
    xs = xs' ∧ ys = ys' := by
  have e1 := indexByte_append_cons xs ys c hx
  have e2 := indexByte_append_cons xs' ys' c hx'
  rw [h, e2] at e1
  have hl : xs'.length = xs.length := by simpa using e1
  have := List.append_inj h hl.symm
  exact ⟨this.1, by simpa using this.2⟩

theorem head_ne_of_plain (host port : GoString) (h : 91 ∉ host) :
    (host ++ 58 :: port).head? ≠ some 91 := by
  cases host with
  | nil => simp
  | cons x xs =>
    intro e
    simp at e
    exact h (by simp [e])

/-- C1: `Control` returns `nil` exactly when the network is "tcp4" or "tcp6",
the address splits into host and port, the port is "80" or "443", the host
parses as a literal IP address and that address is public; in every other case
it returns a non-nil error. -/
theorem Control_nil_iff {RawConn : Type} (network address : GoString) (c : RawConn) :
    (Control network address c = none ↔
      (network = str "tcp4" ∨ network = str "tcp6") ∧
      ∃ host port, SplitHostPort address = some (host, port) ∧
        (port = str "80" ∨ port = str "443") ∧
        ∃ ip, ParseIP host = some ip ∧ isPublicIPAddress ip = true) ∧
    (Control network address c = none ∨ ∃ e, Control network address c = some e) := by
  refine ⟨?_, ?_⟩
  · unfold Control
    by_cases hn : network = str "tcp4" ∨ network = str "tcp6"
    · simp only [hn, not_true_eq_false, if_false, true_and]
      cases hs : SplitHostPort address with
      | none => simp
      | some hp =>
        obtain ⟨host, port⟩ := hp
        by_cases hp : port = str "80" ∨ port = str "443"
        · cases hi : ParseIP host with
          | none => simp [hp, hi]
          | some ip =>
            by_cases hpub : isPublicIPAddress ip = true
            · simp only [hp, hi, hpub, not_true_eq_false, if_false, true_iff]
              exact ⟨host, port, rfl, hp, ip, hi, hpub⟩
            · simp [hp, hi, hpub]
        · simp [hp]
    · simp [hn]
  · cases Control network address c with
    | none => exact Or.inl rfl
    | some e => exact Or.inr ⟨e, rfl⟩

/-- C4: for every network string other than "tcp4" and "tcp6" and every
address string, `Control` returns `ErrUnsafeNetwork`: the network check comes
before every other check. -/
theorem Control_unsafe_network {RawConn : Type} (network address : GoString) (c : RawConn)
    (h4 : network ≠ str "tcp4") (h6 : network ≠ str "tcp6") :
    Control network address c = some ErrUnsafeNetwork := by
  simp [Control, h4, h6]

theorem Control_unsafe_network_witness :
    Control (str "udp") (str "93.184.216.34:80") () = some ErrUnsafeNetwork ∧
    Control (str "unix") (str "/var/run/docker.sock") () = some ErrUnsafeNetwork ∧
    Control (str "tcp") (str "10.0.0.1:80") () = some ErrUnsafeNetwork ∧
    Control (str "TCP4") (str "93.184.216.34:8080") () = some ErrUnsafeNetwork ∧
    Control (str "") (str "not-an-ip") () = some ErrUnsafeNetwork :=
  ⟨Control_unsafe_network _ _ _ (by decide) (by decide),
   Control_unsafe_network _ _ _ (by decide) (by decide),
   Control_unsafe_network _ _ _ (by decide) (by decide),
   Control_unsafe_network _ _ _ (by decide) (by decide),
   Control_unsafe_network _ _ _ (by decide) (by decide)⟩

/-- C5: for network "tcp4" or "tcp6" and every address that splits into host
and port with a port string other than exactly "80" and "443", `Control`
returns `ErrUnsafePort`, whatever the host is. -/
theorem Control_unsafe_port {RawConn : Type} (network address host port : GoString)
    (c : RawConn) (hn : network = str "tcp4" ∨ network = str "tcp6")
    (hs : SplitHostPort address = some (host, port))
    (h80 : port ≠ str "80") (h443 : port ≠ str "443") :
    Control network address c = some ErrUnsafePort := by
  simp [Control, hn, hs, h80, h443]

theorem Control_unsafe_port_witness :
    Control (str "tcp4") (str "93.184.216.34:8080") () = some ErrUnsafePort ∧
    Control (str "tcp4") (str "93.184.216.34:080") () = some ErrUnsafePort ∧
    Control (str "tcp6") (str "93.184.216.34:0443") () = some ErrUnsafePort ∧
    Control (str "tcp4") (str "10.0.0.1:+80") () = some ErrUnsafePort ∧
    Control (str "tcp6") (str "example.com:http") () = some ErrUnsafePort ∧
    Control (str "tcp4") (str "93.184.216.34:") () = some ErrUnsafePort :=
  ⟨Control_unsafe_port _ _ (str "93.184.216.34") (str "8080") _ (by decide) (by decide)
     (by decide) (by decide),
   Control_unsafe_port _ _ (str "93.184.216.34") (str "080") _ (by decide) (by decide)
     (by decide) (by decide),
   Control_unsafe_port _ _ (str "93.184.216.34") (str "0443") _ (by decide) (by decide)
     (by decide) (by decide),
   Control_unsafe_port _ _ (str "10.0.0.1") (str "+80") _ (by decide) (by decide)
     (by decide) (by decide),
   Control_unsafe_port _ _ (str "example.com") (str "http") _ (by decide) (by decide)
     (by decide) (by decide),
   Control_unsafe_port _ _ (str "93.184.216.34") (str "") _ (by decide) (by decide)
     (by decide) (by decide)⟩

/-- C6: for network "tcp4" or "tcp6", `Control` returns `ErrInvalidAddress` for
every address that `SplitHostPort` rejects, and that is every address that is
not a well-formed host:port pair: an address with no colon at all, an opening
'[' with no ']' after it, an address that does not start with '[' and has
several colons, and a bracketed host that is not followed by ':' and a port
without colon.  The host plays no part. -/
theorem Control_invalid_address {RawConn : Type} (network address : GoString) (c : RawConn)
    (hn : network = str "tcp4" ∨ network = str "tcp6") :
    (SplitHostPort address = none → Control network address c = some ErrInvalidAddress) ∧
    (58 ∉ address → Control network address c = some ErrInvalidAddress) ∧
    (∀ rest, address = 91 :: rest → 93 ∉ rest →
      Control network address c = some ErrInvalidAddress) ∧
    (address.head? ≠ some 91 → 2 ≤ address.count 58 →
      Control network address c = some ErrInvalidAddress) ∧
    (∀ host rest, address = 91 :: (host ++ 93 :: rest) → 93 ∉ host →
      (¬ ∃ port, rest = 58 :: port ∧ 58 ∉ port) →
      Control network address c = some ErrInvalidAddress) := by
  have key : SplitHostPort address = none →
      Control network address c = some ErrInvalidAddress := by
    intro hs
    simp [Control, hn, hs]
  refine ⟨key, ?_, ?_, ?_, ?_⟩
  · intro hc
    apply key
    cases hs : SplitHostPort address with
    | none => rfl
    | some hp =>
      obtain ⟨host, port⟩ := hp
      obtain ⟨_, _, _, h | h⟩ := SplitHostPort_eq_some _ _ _ hs
      · exact absurd (by rw [h.1]; simp) hc
      · exact absurd (by rw [h.1]; simp) hc
  · intro rest hr h93
    apply key
    cases hs : SplitHostPort address with
    | none => rfl
    | some hp =>
      obtain ⟨host, port⟩ := hp
      obtain ⟨_, _, _, h | h⟩ := SplitHostPort_eq_some _ _ _ hs
      · have := head_ne_of_plain host port h.2.2.1
        rw [← h.1, hr] at this
        simp at this
      · rw [hr] at h
        have e : rest = host ++ 93 :: 58 :: port := by simpa using h.1
        exact absurd (by rw [e]; simp) h93
  · intro hh hcount
    apply key
    cases hs : SplitHostPort address with
    | none => rfl
    | some hp =>
      obtain ⟨host, port⟩ := hp
      obtain ⟨p58, _, _, h | h⟩ := SplitHostPort_eq_some _ _ _ hs
      · rw [h.1] at hcount
        simp [List.count_eq_zero_of_not_mem h.2.1, List.count_eq_zero_of_not_mem p58] at hcount
      · rw [h.1] at hh
        simp at hh
  · intro host rest hr h93 hnot
    apply key
    cases hs : SplitHostPort address with
    | none => rfl
    | some hp =>
      obtain ⟨host', port⟩ := hp
      obtain ⟨p58, _, _, h | h⟩ := SplitHostPort_eq_some _ _ _ hs
      · have := head_ne_of_plain host' port h.2.2.1
        rw [← h.1, hr] at this
        simp at this
      · rw [hr] at h
        have e : host ++ 93 :: rest = host' ++ 93 :: 58 :: port := by simpa using h.1
        obtain ⟨_, e2⟩ := split_first_unique _ _ _ _ 93 e h93 h.2.2
        exact absurd ⟨port, e2, p58⟩ hnot

theorem Control_invalid_address_witness :
    Control (str "tcp4") (str "10.0.0.1") () = some ErrInvalidAddress ∧
    Control (str "tcp6") (str "[::1:80") () = some ErrInvalidAddress ∧
    Control (str "tcp6") (str "::1:80") () = some ErrInvalidAddress ∧
    Control (str "tcp6") (str "[2606:2800:220:1:248:1893:25c8:1946]443") () =
      some ErrInvalidAddress :=
  ⟨(Control_invalid_address (str "tcp4") (str "10.0.0.1") () (by decide)).2.1 (by decide),
   (Control_invalid_address (str "tcp6") (str "[::1:80") () (by decide)).2.2.1
     (str "::1:80") (by decide) (by decide),
   (Control_invalid_address (str "tcp6") (str "::1:80") () (by decide)).2.2.2.1
     (by decide) (by decide),
   (Control_invalid_address (str "tcp6") (str "[2606:2800:220:1:248:1893:25c8:1946]443") ()
     (by decide)).2.2.2.2 (str "2606:2800:220:1:248:1893:25c8:1946") (str "443")
     (by decide) (by decide)
     (by
      rintro ⟨p, h, _⟩
      have e : str "443" = [52, 52, 51] := by decide
      rw [e] at h
      simp at h)⟩

/-- C7: for network "tcp4" or "tcp6" and port "80" or "443", `Control` returns
`ErrInvalidIP` for every host component that `ParseIP` does not accept as a
literal IPv4 or IPv6 address; nothing but the parse is attempted. -/
theorem Control_invalid_ip {RawConn : Type} (network address host port : GoString)
    (c : RawConn) (hn : network = str "tcp4" ∨ network = str "tcp6")
    (hs : SplitHostPort address = some (host, port))
    (hp : port = str "80" ∨ port = str "443")
    (hi : ParseIP host = none) :
    Control network address c = some ErrInvalidIP := by
  simp [Control, hn, hs, hp, hi]

theorem Control_invalid_ip_witness :
    Control (str "tcp4") (str "not-an-ip:80") () = some ErrInvalidIP ∧
    Control (str "tcp4") (str "example.com:443") () = some ErrInvalidIP ∧
    Control (str "tcp6") (str ":80") () = some ErrInvalidIP ∧
    Control (str "tcp4") (str "256.1.1.1:80") () = some ErrInvalidIP ∧
    Control (str "tcp6") (str "[fe80::1%eth0]:443") () = some ErrInvalidIP :=
  ⟨Control_invalid_ip _ _ (str "not-an-ip") (str "80") _ (by decide) (by decide)
     (by decide) (by decide),
   Control_invalid_ip _ _ (str "example.com") (str "443") _ (by decide) (by decide)
     (by decide) (by decide),
   Control_invalid_ip _ _ (str "") (str "80") _ (by decide) (by decide)
     (by decide) (by decide),
   Control_invalid_ip _ _ (str "256.1.1.1") (str "80") _ (by decide) (by decide)
     (by decide) (by decide),
   Control_invalid_ip _ _ (str "fe80::1%eth0") (str "443") _ (by decide) (by decide)
     (by decide) (by decide)⟩

/-! ## IPv4 literals: reserved blocks deny, everything else allows -/

theorem isPublicIPAddress_mapped (a b c d : Nat) :
    isPublicIPAddress (v4InV6Prefix ++ [a, b, c, d]) =
      !isIPv4Reserved (v4InV6Prefix ++ [a, b, c, d]) := by
  simp [isPublicIPAddress, To4_mapped]

theorem isIPv4Reserved_iff_inReservedBlocks (a b c d : Nat)
    (ha : a < 256) (hb : b < 256) (hc : c < 256) (hd : d < 256) :
    isIPv4Reserved (v4InV6Prefix ++ [a, b, c, d]) = true ↔ inReservedBlocks a b c d := by
  rw [isIPv4Reserved_mapped a b c d ha hb hc, inReservedBlocks_iff a b c d hb hc hd]

theorem port_clean (port : GoString) (hp : port = str "80" ∨ port = str "443") :
    58 ∉ port ∧ 91 ∉ port ∧ 93 ∉ port := by
  rcases hp with h | h <;> subst h <;> decide

/-- What `Control` answers on `a.b.c.d:port` with a valid network and port. -/
theorem Control_dottedQuad {RawConn : Type} (a b c d : Nat) (network port : GoString)
    (conn : RawConn) (ha : a < 256) (hb : b < 256) (hc : c < 256) (hd : d < 256)
    (hn : network = str "tcp4" ∨ network = str "tcp6")
    (hp : port = str "80" ∨ port = str "443") :
    Control network (dottedQuad a b c d ++ 58 :: port) conn =
      if inReservedBlocks a b c d then some ErrUnsafeIP else none := by
  obtain ⟨q1, q2, q3, _⟩ := dottedQuad_clean a b c d ha hb hc hd
  obtain ⟨p1, p2, p3⟩ := port_clean port hp
  have hs := SplitHostPort_plain (dottedQuad a b c d) port q1 q2 q3 p1 p2 p3
  have hi := ParseIP_dottedQuad a b c d ha hb hc hd
  have hr := isIPv4Reserved_iff_inReservedBlocks a b c d ha hb hc hd
  unfold Control
  simp only [hn, hs, hp, hi, not_true_eq_false, if_false, isPublicIPAddress_mapped]
  by_cases h : inReservedBlocks a b c d
  · simp [h, hr.mpr h]
  · have : isIPv4Reserved (v4InV6Prefix ++ [a, b, c, d]) = false := by
      cases hv : isIPv4Reserved (v4InV6Prefix ++ [a, b, c, d]) with
      | false => rfl
      | true => exact absurd (hr.mp hv) h
    simp [h, this]

/-- C2: for every IPv4 address `a.b.c.d` inside one of the 15 reserved blocks
(first and last address of each block included), every network in
{"tcp4", "tcp6"} and every port in {"80", "443"}, `Control` on `a.b.c.d:port`
returns `ErrUnsafeIP`, whose text is "unsafe IP address". -/
theorem Control_reserved_ipv4 {RawConn : Type} (a b c d : Nat) (network port : GoString)
    (conn : RawConn) (ha : a < 256) (hb : b < 256) (hc : c < 256) (hd : d < 256)
    (hres : inReservedBlocks a b c d)
    (hn : network = str "tcp4" ∨ network = str "tcp6")
    (hp : port = str "80" ∨ port = str "443") :
    Control network (dottedQuad a b c d ++ 58 :: port) conn = some ErrUnsafeIP ∧
      GoError.Error ErrUnsafeIP = "unsafe IP address" := by
  rw [Control_dottedQuad a b c d network port conn ha hb hc hd hn hp]
  simp [hres, GoError.Error]

theorem Control_reserved_ipv4_witness :
    (dottedQuad 10 0 0 1 ++ 58 :: str "80" = str "10.0.0.1:80" ∧
      Control (str "tcp4") (dottedQuad 10 0 0 1 ++ 58 :: str "80") () = some ErrUnsafeIP) ∧
    (dottedQuad 10 0 0 0 ++ 58 :: str "443" = str "10.0.0.0:443" ∧
      Control (str "tcp6") (dottedQuad 10 0 0 0 ++ 58 :: str "443") () = some ErrUnsafeIP) ∧
    (dottedQuad 10 255 255 255 ++ 58 :: str "80" = str "10.255.255.255:80" ∧
      Control (str "tcp4") (dottedQuad 10 255 255 255 ++ 58 :: str "80") () =
        some ErrUnsafeIP) ∧
    (dottedQuad 255 255 255 255 ++ 58 :: str "80" = str "255.255.255.255:80" ∧
      Control (str "tcp4") (dottedQuad 255 255 255 255 ++ 58 :: str "80") () =
        some ErrUnsafeIP) :=
  ⟨⟨by decide, (Control_reserved_ipv4 10 0 0 1 (str "tcp4") (str "80") () (by decide)
      (by decide) (by decide) (by decide) (by decide) (by decide) (by decide)).1⟩,
   ⟨by decide, (Control_reserved_ipv4 10 0 0 0 (str "tcp6") (str "443") () (by decide)
      (by decide) (by decide) (by decide) (by decide) (by decide) (by decide)).1⟩,
   ⟨by decide, (Control_reserved_ipv4 10 255 255 255 (str "tcp4") (str "80") () (by decide)
      (by decide) (by decide) (by decide) (by decide) (by decide) (by decide)).1⟩,
   ⟨by decide, (Control_reserved_ipv4 255 255 255 255 (str "tcp4") (str "80") () (by decide)
      (by decide) (by decide) (by decide) (by decide) (by decide) (by decide)).1⟩⟩

/-- C3: for every IPv4 address `a.b.c.d` outside all 15 reserved blocks (the
addresses next to a block included) and every port in {"80", "443"}, `Control`
on network "tcp4" and `a.b.c.d:port` returns `nil`. -/
theorem Control_public_ipv4 {RawConn : Type} (a b c d : Nat) (port : GoString)
    (conn : RawConn) (ha : a < 256) (hb : b < 256) (hc : c < 256) (hd : d < 256)
    (hout : ¬ inReservedBlocks a b c d)
    (hp : port = str "80" ∨ port = str "443") :
    Control (str "tcp4") (dottedQuad a b c d ++ 58 :: port) conn = none := by
  rw [Control_dottedQuad a b c d (str "tcp4") port conn ha hb hc hd (Or.inl rfl) hp]
  simp [hout]

theorem Control_public_ipv4_witness :
    (dottedQuad 93 184 216 34 ++ 58 :: str "443" = str "93.184.216.34:443" ∧
      Control (str "tcp4") (dottedQuad 93 184 216 34 ++ 58 :: str "443") () = none) ∧
    Control (str "tcp4") (dottedQuad 9 255 255 255 ++ 58 :: str "80") () = none ∧
    Control (str "tcp4") (dottedQuad 11 0 0 0 ++ 58 :: str "80") () = none ∧
    Control (str "tcp4") (dottedQuad 100 63 255 255 ++ 58 :: str "80") () = none ∧
    Control (str "tcp4") (dottedQuad 100 128 0 0 ++ 58 :: str "80") () = none ∧
    Control (str "tcp4") (dottedQuad 172 15 255 255 ++ 58 :: str "443") () = none ∧
    Control (str "tcp4") (dottedQuad 172 32 0 0 ++ 58 :: str "443") () = none ∧
    Control (str "tcp4") (dottedQuad 192 0 1 0 ++ 58 :: str "443") () = none ∧
    Control (str "tcp4") (dottedQuad 198 20 0 0 ++ 58 :: str "443") () = none ∧
    Control (str "tcp4") (dottedQuad 223 255 255 255 ++ 58 :: str "443") () = none ∧
    Control (str "tcp4") (dottedQuad 1 0 0 0 ++ 58 :: str "443") () = none :=
  ⟨⟨by decide, Control_public_ipv4 93 184 216 34 (str "443") () (by decide) (by decide)
      (by decide) (by decide) (by decide) (by decide)⟩,
   Control_public_ipv4 9 255 255 255 (str "80") () (by decide) (by decide)
      (by decide) (by decide) (by decide) (by decide),
   Control_public_ipv4 11 0 0 0 (str "80") () (by decide) (by decide)
      (by decide) (by decide) (by decide) (by decide),
   Control_public_ipv4 100 63 255 255 (str "80") () (by decide) (by decide)
      (by decide) (by decide) (by decide) (by decide),
   Control_public_ipv4 100 128 0 0 (str "80") () (by decide) (by decide)
      (by decide) (by decide) (by decide) (by decide),
   Control_public_ipv4 172 15 255 255 (str "443") () (by decide) (by decide)
      (by decide) (by decide) (by decide) (by decide),
   Control_public_ipv4 172 32 0 0 (str "443") () (by decide) (by decide)
      (by decide) (by decide) (by decide) (by decide),
   Control_public_ipv4 192 0 1 0 (str "443") () (by decide) (by decide)
      (by decide) (by decide) (by decide) (by decide),
   Control_public_ipv4 198 20 0 0 (str "443") () (by decide) (by decide)
      (by decide) (by decide) (by decide) (by decide),
   Control_public_ipv4 223 255 255 255 (str "443") () (by decide) (by decide)
      (by decide) (by decide) (by decide) (by decide),
   Control_public_ipv4 1 0 0 0 (str "443") () (by decide) (by decide)
      (by decide) (by decide) (by decide) (by decide)⟩

/-! ## IPv6 literals -/

theorem globalUnicast_masks : networkNumberAndMask globalUnicastIPv6Net =
    ([0x20, 0, 0, 0, 0, 0, 0, 0, 0, 0, 0, 0, 0, 0, 0, 0],
     [224, 0, 0, 0, 0, 0, 0, 0, 0, 0, 0, 0, 0, 0, 0, 0]) := by
  decide

/-- The classification of an address that is not an IPv4 address: the top
three bits of its first byte are compared with `001`. -/
theorem isPublicIPAddress_not_v4 (x : IP) (hlen : x.length = 16) (h4 : To4 x = none) :
    isPublicIPAddress x = true ↔ x.getD 0 0 &&& 224 = 32 := by
  have h32 : (32 : Nat) &&& 224 = 32 := by decide
  simp only [isPublicIPAddress, h4, isIPv6GlobalUnicast, IPNet.Contains, globalUnicast_masks,
    hlen, containsLoop, List.getD_cons_zero, List.getD_cons_succ, Nat.and_zero, h32]
  simp
  exact eq_comm

theorem SplitHostPort_plain_none (host port : GoString) (h58 : 58 ∉ host) (h91 : 91 ∉ host)
    (hdirty : 58 ∈ port ∨ 91 ∈ port ∨ 93 ∈ port) :
    SplitHostPort (host ++ 58 :: port) = none := by
  cases hs : SplitHostPort (host ++ 58 :: port) with
  | none => rfl
  | some hp =>
    obtain ⟨h', p'⟩ := hp
    obtain ⟨q1, q2, q3, h | h⟩ := SplitHostPort_eq_some _ _ _ hs
    · obtain ⟨_, e⟩ := split_first_unique _ _ _ _ 58 h.1 h58 h.2.1
      subst e
      rcases hdirty with d | d | d
      · exact absurd d q1
      · exact absurd d q2
      · exact absurd d q3
    · have := head_ne_of_plain host port h91
      rw [h.1] at this
      simp at this

theorem SplitHostPort_bracketed_none (host port : GoString) (h93 : 93 ∉ host)
    (hdirty : 58 ∈ port ∨ 91 ∈ port ∨ 93 ∈ port) :
    SplitHostPort (91 :: (host ++ 93 :: 58 :: port)) = none := by
  cases hs : SplitHostPort (91 :: (host ++ 93 :: 58 :: port)) with
  | none => rfl
  | some hp =>
    obtain ⟨h', p'⟩ := hp
    obtain ⟨q1, q2, q3, h | h⟩ := SplitHostPort_eq_some _ _ _ hs
    · have := head_ne_of_plain h' p' h.2.2.1
      rw [← h.1] at this
      simp at this
    · have e : host ++ 93 :: 58 :: port = h' ++ 93 :: 58 :: p' := by simpa using h.1
      obtain ⟨_, e2⟩ := split_first_unique _ _ _ _ 93 e h93 h.2.2
      have e3 : port = p' := by simpa using e2
      subst e3
      rcases hdirty with d | d | d
      · exact absurd d q1
      · exact absurd d q2
      · exact absurd d q3

/-- What `Control` answers on a bracketed literal `[host]:port` that `ParseIP`
accepts, with a valid network and port. -/
theorem Control_bracketed {RawConn : Type} (network host port : GoString) (x : IP)
    (conn : RawConn) (hn : network = str "tcp4" ∨ network = str "tcp6")
    (hp : port = str "80" ∨ port = str "443") (hx : ParseIP host = some x) :
    Control network (91 :: (host ++ 93 :: 58 :: port)) conn =
      if isPublicIPAddress x = true then none else some ErrUnsafeIP := by
  obtain ⟨b1, b2⟩ := ParseIP_no_bracket host x hx
  obtain ⟨p1, p2, p3⟩ := port_clean port hp
  have hs := SplitHostPort_bracketed host port b1 b2 p1 p2 p3
  unfold Control
  simp only [hn, hs, hp, hx, not_true_eq_false, if_false]
  by_cases h : isPublicIPAddress x = true <;> simp [h]

/-- An address that is not an IPv4 address is public exactly when its first
byte is in 0x20..0x3f. -/
theorem isPublicIPAddress_range (x : IP) (hlen : x.length = 16) (hb : allBytes x)
    (h4 : To4 x = none) :
    isPublicIPAddress x = true ↔ 0x20 ≤ x.getD 0 0 ∧ x.getD 0 0 ≤ 0x3f := by
  have h0 : x.getD 0 0 < 256 := allBytes_getD x 0 hb
  rw [isPublicIPAddress_not_v4 x hlen h4, land_224 _ h0]
  omega

/-- C8: for every 16-byte address `x` that is not an IPv4-mapped address,
`isPublicIPAddress x` is true exactly when the first byte of `x` is in
0x20..0x3f (its top three bits are 001, the block 2000::/3).  So, with a valid
network and port, `Control` allows every bracketed literal that parses to such
an `x` inside 2000::/3 and denies every other one with `ErrUnsafeIP`; the
latter holds in particular for the first bytes 0x00 (`::1`, `::`), 0xfe
(fe80::/10), 0xfc and 0xfd (fc00::/7) and 0xff (ff00::/8). -/
theorem isPublicIPAddress_ipv6 (x : IP) (hlen : x.length = 16) (hb : allBytes x)
    (h4 : To4 x = none) :
    (isPublicIPAddress x = true ↔ 0x20 ≤ x.getD 0 0 ∧ x.getD 0 0 ≤ 0x3f) ∧
    (isPublicIPAddress x = true ↔ x.getD 0 0 / 32 = 1) ∧
    (x.getD 0 0 = 0 ∨ x.getD 0 0 = 0xfe ∨ x.getD 0 0 / 2 = 0xfc / 2 ∨ x.getD 0 0 = 0xff →
      isPublicIPAddress x = false) ∧
    (∀ (RawConn : Type) (network host port : GoString) (conn : RawConn),
      (network = str "tcp4" ∨ network = str "tcp6") → (port = str "80" ∨ port = str "443") →
      ParseIP host = some x →
      Control network (91 :: (host ++ 93 :: 58 :: port)) conn =
        if 0x20 ≤ x.getD 0 0 ∧ x.getD 0 0 ≤ 0x3f then none else some ErrUnsafeIP) := by
  have h0 : x.getD 0 0 < 256 := allBytes_getD x 0 hb
  have key := isPublicIPAddress_not_v4 x hlen h4
  rw [land_224 _ h0] at key
  have k1 := isPublicIPAddress_range x hlen hb h4
  refine ⟨k1, ?_, ?_, ?_⟩
  · rw [key]
    omega
  · intro h
    cases hp : isPublicIPAddress x with
    | false => rfl
    | true =>
      have := k1.mp hp
      omega
  · intro RawConn network host port conn hn hp hx
    rw [Control_bracketed network host port x conn hn hp hx]
    by_cases h : isPublicIPAddress x = true
    · rw [if_pos h, if_pos (k1.mp h)]
    · rw [if_neg h, if_neg (fun hr => h (k1.mpr hr))]

theorem isPublicIPAddress_ipv6_witness :
    Control (str "tcp6") (str "[2606:2800:220:1:248:1893:25c8:1946]:443") () = none ∧
    Control (str "tcp6") (str "[::1]:443") () = some ErrUnsafeIP ∧
    Control (str "tcp6") (str "[::]:80") () = some ErrUnsafeIP ∧
    Control (str "tcp6") (str "[fe80::1]:443") () = some ErrUnsafeIP ∧
    Control (str "tcp6") (str "[fd00::1]:80") () = some ErrUnsafeIP ∧
    Control (str "tcp4") (str "[ff02::1]:443") () = some ErrUnsafeIP :=
  ⟨(isPublicIPAddress_ipv6 [38, 6, 40, 0, 2, 32, 0, 1, 2, 72, 24, 147, 37, 200, 25, 70]
      (by decide) (by decide) (by decide)).2.2.2 Unit (str "tcp6")
      (str "2606:2800:220:1:248:1893:25c8:1946") (str "443") () (by decide) (by decide)
      (by decide),
   (isPublicIPAddress_ipv6 [0, 0, 0, 0, 0, 0, 0, 0, 0, 0, 0, 0, 0, 0, 0, 1]
      (by decide) (by decide) (by decide)).2.2.2 Unit (str "tcp6")
      (str "::1") (str "443") () (by decide) (by decide) (by decide),
   (isPublicIPAddress_ipv6 [0, 0, 0, 0, 0, 0, 0, 0, 0, 0, 0, 0, 0, 0, 0, 0]
      (by decide) (by decide) (by decide)).2.2.2 Unit (str "tcp6")
      (str "::") (str "80") () (by decide) (by decide) (by decide),
   (isPublicIPAddress_ipv6 [254, 128, 0, 0, 0, 0, 0, 0, 0, 0, 0, 0, 0, 0, 0, 1]
      (by decide) (by decide) (by decide)).2.2.2 Unit (str "tcp6")
      (str "fe80::1") (str "443") () (by decide) (by decide) (by decide),
   (isPublicIPAddress_ipv6 [253, 0, 0, 0, 0, 0, 0, 0, 0, 0, 0, 0, 0, 0, 0, 1]
      (by decide) (by decide) (by decide)).2.2.2 Unit (str "tcp6")
      (str "fd00::1") (str "80") () (by decide) (by decide) (by decide),
   (isPublicIPAddress_ipv6 [255, 2, 0, 0, 0, 0, 0, 0, 0, 0, 0, 0, 0, 0, 0, 1]
      (by decide) (by decide) (by decide)).2.2.2 Unit (str "tcp4")
      (str "ff02::1") (str "443") () (by decide) (by decide) (by decide)⟩

/-! ## IPv4-mapped literals -/

theorem mapped_host_clean (a b c d : Nat)
    (ha : a < 256) (hb : b < 256) (hc : c < 256) (hd : d < 256) :
    91 ∉ str "::ffff:" ++ dottedQuad a b c d ∧ 93 ∉ str "::ffff:" ++ dottedQuad a b c d := by
  obtain ⟨_, q2, q3, _⟩ := dottedQuad_clean a b c d ha hb hc hd
  have h1 : 91 ∉ str "::ffff:" := by decide
  have h2 : 93 ∉ str "::ffff:" := by decide
  exact ⟨by simp [h1, q2], by simp [h2, q3]⟩

/-- What `Control` answers on `[::ffff:a.b.c.d]:port` with a valid network and
port. -/
theorem Control_mapped {RawConn : Type} (a b c d : Nat) (network port : GoString)
    (conn : RawConn) (ha : a < 256) (hb : b < 256) (hc : c < 256) (hd : d < 256)
    (hn : network = str "tcp4" ∨ network = str "tcp6")
    (hp : port = str "80" ∨ port = str "443") :
    Control network (91 :: (str "::ffff:" ++ dottedQuad a b c d ++ 93 :: 58 :: port)) conn =
      if inReservedBlocks a b c d then some ErrUnsafeIP else none := by
  rw [Control_bracketed network _ port _ conn hn hp (ParseIP_mapped a b c d ha hb hc hd),
    ← Control_dottedQuad a b c d network port conn ha hb hc hd hn hp]
  obtain ⟨q1, q2, q3, _⟩ := dottedQuad_clean a b c d ha hb hc hd
  obtain ⟨p1, p2, p3⟩ := port_clean port hp
  have hs := SplitHostPort_plain (dottedQuad a b c d) port q1 q2 q3 p1 p2 p3
  have hi := ParseIP_dottedQuad a b c d ha hb hc hd
  unfold Control
  simp only [hn, hs, hp, hi, not_true_eq_false, if_false]
  by_cases h : isPublicIPAddress (v4InV6Prefix ++ [a, b, c, d]) = true <;> simp [h]

theorem Control_mapped_public_counterexample :
    (ParseIP (str "::ffff:93.184.216.34") =
        some [0, 0, 0, 0, 0, 0, 0, 0, 0, 0, 255, 255, 93, 184, 216, 34] ∧
      Control (str "tcp6") (str "[::ffff:93.184.216.34]:443") () = none) ∧
    ¬ (∀ (host : GoString) (x : IP), ParseIP host = some x → 58 ∈ host →
        ¬ (0x20 ≤ x.getD 0 0 ∧ x.getD 0 0 ≤ 0x3f) →
        Control (str "tcp6") (91 :: (host ++ 93 :: 58 :: str "443")) () = some ErrUnsafeIP) := by
  refine ⟨⟨by decide, by decide⟩, fun h => ?_⟩
  have := h (str "::ffff:93.184.216.34")
    [0, 0, 0, 0, 0, 0, 0, 0, 0, 0, 255, 255, 93, 184, 216, 34] (by decide) (by decide)
    (by decide)
  revert this
  decide

theorem list_length_sixteen (x : List Nat) (h : x.length = 16) :
    ∃ x0 x1 x2 x3 x4 x5 x6 x7 x8 x9 x10 x11 x12 x13 x14 x15,
      x = [x0, x1, x2, x3, x4, x5, x6, x7, x8, x9, x10, x11, x12, x13, x14, x15] := by
  match x, h with
  | [x0, x1, x2, x3, x4, x5, x6, x7, x8, x9, x10, x11, x12, x13, x14, x15], _ =>
    exact ⟨x0, x1, x2, x3, x4, x5, x6, x7, x8, x9, x10, x11, x12, x13, x14, x15, rfl⟩

/-- A 16-byte address that `To4` accepts is `::ffff:a.b.c.d`, and `To4` returns
its last four bytes. -/
theorem To4_eq_some (x v : IP) (hlen : x.length = 16) (h : To4 x = some v) :
    ∃ a b c d, v = [a, b, c, d] ∧ x = v4InV6Prefix ++ [a, b, c, d] := by
  obtain ⟨x0, x1, x2, x3, x4, x5, x6, x7, x8, x9, x10, x11, x12, x13, x14, x15, rfl⟩ :=
    list_length_sixteen x hlen
  simp [To4, IPv4len, IPv6len, isZeros] at h
  obtain ⟨⟨⟨z0, z1, z2, z3, z4, z5, z6, z7, z8, z9⟩, z10, z11⟩, hv⟩ := h
  subst z0 z1 z2 z3 z4 z5 z6 z7 z8 z9 z10 z11
  exact ⟨x12, x13, x14, x15, hv.symm, rfl⟩

/-- C9 (amended): for a valid network and port, `Control` denies with
`ErrUnsafeIP` every bracketed IPv6 literal whose 16-byte value is not
IPv4-mapped and lies outside 2000::/3.  A literal whose value is IPv4-mapped,
`::ffff:a.b.c.d` in whatever spelling, is classified by the reserved IPv4
table instead: it is denied with `ErrUnsafeIP` when `a.b.c.d` lies in a
reserved block and allowed otherwise.  Every value is of one of the two
kinds. -/
theorem Control_ipv6_outside_global {RawConn : Type} (network host port : GoString) (x : IP)
    (conn : RawConn) (hn : network = str "tcp4" ∨ network = str "tcp6")
    (hp : port = str "80" ∨ port = str "443") (hx : ParseIP host = some x) :
    (To4 x = none → ¬ (0x20 ≤ x.getD 0 0 ∧ x.getD 0 0 ≤ 0x3f) →
      Control network (91 :: (host ++ 93 :: 58 :: port)) conn = some ErrUnsafeIP) ∧
    (∀ a b c d : Nat, To4 x = some [a, b, c, d] →
      x = v4InV6Prefix ++ [a, b, c, d] ∧ a < 256 ∧ b < 256 ∧ c < 256 ∧ d < 256 ∧
      Control network (91 :: (host ++ 93 :: 58 :: port)) conn =
        if inReservedBlocks a b c d then some ErrUnsafeIP else none) ∧
    (To4 x = none ∨ ∃ a b c d : Nat, To4 x = some [a, b, c, d]) := by
  obtain ⟨hb, hlen⟩ := ParseIP_wf host x hx
  refine ⟨?_, ?_, ?_⟩
  · intro h4 hout
    have hnp : ¬ isPublicIPAddress x = true :=
      fun h => hout ((isPublicIPAddress_range x hlen hb h4).mp h)
    rw [Control_bracketed network host port x conn hn hp hx, if_neg hnp]
  · intro a b c d h4
    obtain ⟨a', b', c', d', hv, hxe⟩ := To4_eq_some x _ hlen h4
    simp only [List.cons.injEq, and_true] at hv
    obtain ⟨rfl, rfl, rfl, rfl⟩ := hv
    have ha : a < 256 := hb a (by rw [hxe]; simp)
    have hb' : b < 256 := hb b (by rw [hxe]; simp)
    have hc : c < 256 := hb c (by rw [hxe]; simp)
    have hd : d < 256 := hb d (by rw [hxe]; simp)
    refine ⟨hxe, ha, hb', hc, hd, ?_⟩
    rw [Control_bracketed network host port x conn hn hp hx, hxe, isPublicIPAddress_mapped]
    have hr := isIPv4Reserved_iff_inReservedBlocks a b c d ha hb' hc hd
    by_cases hres : inReservedBlocks a b c d
    · rw [if_pos hres, hr.mpr hres]
      rfl
    · have hfalse : isIPv4Reserved (v4InV6Prefix ++ [a, b, c, d]) = false := by
        cases hv : isIPv4Reserved (v4InV6Prefix ++ [a, b, c, d]) with
        | false => rfl
        | true => exact absurd (hr.mp hv) hres
      rw [if_neg hres, hfalse]
      rfl
  · cases h4 : To4 x with
    | none => exact Or.inl rfl
    | some v =>
      obtain ⟨a, b, c, d, hv, _⟩ := To4_eq_some x v hlen h4
      exact Or.inr ⟨a, b, c, d, by rw [hv]⟩

theorem Control_ipv6_outside_global_witness :
    Control (str "tcp6") (str "[fe80::1]:443") () = some ErrUnsafeIP ∧
    (Control (str "tcp6") (str "[::ffff:10.0.0.1]:80") () =
      if inReservedBlocks 10 0 0 1 then some ErrUnsafeIP else none) ∧
    (Control (str "tcp6") (str "[::ffff:a00:1]:80") () =
      if inReservedBlocks 10 0 0 1 then some ErrUnsafeIP else none) ∧
    (Control (str "tcp4") (str "[::FFFF:10.0.0.1]:80") () =
      if inReservedBlocks 10 0 0 1 then some ErrUnsafeIP else none) ∧
    (Control (str "tcp6") (str "[::ffff:5db8:d822]:443") () =
      if inReservedBlocks 93 184 216 34 then some ErrUnsafeIP else none) ∧
    inReservedBlocks 10 0 0 1 ∧ ¬ inReservedBlocks 93 184 216 34 :=
  ⟨(Control_ipv6_outside_global (str "tcp6") (str "fe80::1") (str "443")
      [254, 128, 0, 0, 0, 0, 0, 0, 0, 0, 0, 0, 0, 0, 0, 1] () (by decide) (by decide)
      (by decide)).1 (by decide) (by decide),
   ((Control_ipv6_outside_global (str "tcp6") (str "::ffff:10.0.0.1") (str "80")
      [0, 0, 0, 0, 0, 0, 0, 0, 0, 0, 255, 255, 10, 0, 0, 1] () (by decide) (by decide)
      (by decide)).2.1 10 0 0 1 (by decide)).2.2.2.2.2,
   ((Control_ipv6_outside_global (str "tcp6") (str "::ffff:a00:1") (str "80")
      [0, 0, 0, 0, 0, 0, 0, 0, 0, 0, 255, 255, 10, 0, 0, 1] () (by decide) (by decide)
      (by decide)).2.1 10 0 0 1 (by decide)).2.2.2.2.2,
   ((Control_ipv6_outside_global (str "tcp4") (str "::FFFF:10.0.0.1") (str "80")
      [0, 0, 0, 0, 0, 0, 0, 0, 0, 0, 255, 255, 10, 0, 0, 1] () (by decide) (by decide)
      (by decide)).2.1 10 0 0 1 (by decide)).2.2.2.2.2,
   ((Control_ipv6_outside_global (str "tcp6") (str "::ffff:5db8:d822") (str "443")
      [0, 0, 0, 0, 0, 0, 0, 0, 0, 0, 255, 255, 93, 184, 216, 34] () (by decide) (by decide)
      (by decide)).2.1 93 184 216 34 (by decide)).2.2.2.2.2,
   by decide, by decide⟩

/-- C10: for every IPv4 address `a.b.c.d`, every network and every port,
`Control` on `[::ffff:a.b.c.d]:port` returns what it returns on
`a.b.c.d:port`: `ParseIP` gives the same 16 bytes for both hosts, `To4`
reduces them to `a.b.c.d`, and the address is public exactly when `a.b.c.d` is
in no block of the reserved IPv4 table. -/
theorem Control_mapped_eq_ipv4 {RawConn : Type} (a b c d : Nat) (network port : GoString)
    (conn : RawConn) (ha : a < 256) (hb : b < 256) (hc : c < 256) (hd : d < 256) :
    Control network (91 :: (str "::ffff:" ++ dottedQuad a b c d ++ 93 :: 58 :: port)) conn =
      Control network (dottedQuad a b c d ++ 58 :: port) conn ∧
    ParseIP (str "::ffff:" ++ dottedQuad a b c d) = ParseIP (dottedQuad a b c d) ∧
    ∃ x, ParseIP (str "::ffff:" ++ dottedQuad a b c d) = some x ∧ To4 x = some [a, b, c, d] ∧
      (isPublicIPAddress x = true ↔ ¬ inReservedBlocks a b c d) := by
  have hm := ParseIP_mapped a b c d ha hb hc hd
  have hi := ParseIP_dottedQuad a b c d ha hb hc hd
  obtain ⟨q1, q2, q3, _⟩ := dottedQuad_clean a b c d ha hb hc hd
  obtain ⟨m2, m3⟩ := mapped_host_clean a b c d ha hb hc hd
  refine ⟨?_, by rw [hm, hi], v4InV6Prefix ++ [a, b, c, d], hm, To4_mapped a b c d, ?_⟩
  · by_cases hdirty : 58 ∈ port ∨ 91 ∈ port ∨ 93 ∈ port
    · have s1 := SplitHostPort_bracketed_none (str "::ffff:" ++ dottedQuad a b c d) port m3
        hdirty
      have s2 := SplitHostPort_plain_none (dottedQuad a b c d) port q1 q2 hdirty
      unfold Control
      rw [s1, s2]
    · have p1 : 58 ∉ port := fun h => hdirty (Or.inl h)
      have p2 : 91 ∉ port := fun h => hdirty (Or.inr (Or.inl h))
      have p3 : 93 ∉ port := fun h => hdirty (Or.inr (Or.inr h))
      have s1 := SplitHostPort_bracketed (str "::ffff:" ++ dottedQuad a b c d) port m2 m3
        p1 p2 p3
      have s2 := SplitHostPort_plain (dottedQuad a b c d) port q1 q2 q3 p1 p2 p3
      unfold Control
      rw [s1, s2]
      simp only [hm, hi]
  · rw [isPublicIPAddress_mapped]
    have hr := isIPv4Reserved_iff_inReservedBlocks a b c d ha hb hc hd
    cases hv : isIPv4Reserved (v4InV6Prefix ++ [a, b, c, d]) with
    | false =>
      have : ¬ inReservedBlocks a b c d := fun h => by
        rw [hr.mpr h] at hv
        exact absurd hv (by simp)
      simp [this]
    | true => simp [hr.mp hv]

theorem Control_mapped_eq_ipv4_witness :
    (str "::ffff:" ++ dottedQuad 10 0 0 1 = str "::ffff:10.0.0.1" ∧
      Control (str "tcp6") (str "[::ffff:10.0.0.1]:80") () = some ErrUnsafeIP) ∧
    Control (str "tcp6")
        (91 :: (str "::ffff:" ++ dottedQuad 10 0 0 1 ++ 93 :: 58 :: str "80")) () =
      Control (str "tcp6") (dottedQuad 10 0 0 1 ++ 58 :: str "80") () :=
  ⟨⟨by decide, by decide⟩,
   (Control_mapped_eq_ipv4 10 0 0 1 (str "tcp6") (str "80") () (by decide) (by decide)
     (by decide) (by decide)).1⟩

/-! ## The documentation block 2001:db8::/32 -/

theorem To4_none_of_first (x : IP) (hlen : x.length = 16) (h : x.getD 0 0 ≠ 0) :
    To4 x = none := by
  cases x with
  | nil => simp at hlen
  | cons y ys =>
    have hy : y ≠ 0 := by simpa using h
    simp [To4, IPv4len, IPv6len, isZeros, hlen, hy]

/-- C11 (the code departs from the claim): the claim asks that every address
of the documentation block 2001:db8::/32 be denied with `ErrUnsafeIP`.  At
`2001:db8::1` the code does the opposite: the literal parses to a 16-byte value
that `isPublicIPAddress` accepts, and `Control` returns `nil`. -/
theorem Control_documentation_allowed :
    ParseIP (str "2001:db8::1") =
      some [0x20, 0x01, 0x0d, 0xb8, 0, 0, 0, 0, 0, 0, 0, 0, 0, 0, 0, 1] ∧
    isPublicIPAddress [0x20, 0x01, 0x0d, 0xb8, 0, 0, 0, 0, 0, 0, 0, 0, 0, 0, 0, 1] = true ∧
    Control (str "tcp6") (str "[2001:db8::1]:443") () = none := by
  decide

/-- What the code does on the whole documentation block 2001:db8::/32: such an
address has the first byte 0x20 and so lies inside 2000::/3, the one range the
IPv6 path tests; `isPublicIPAddress` is true for it and `Control`, with a valid
network and port, returns `nil`. -/
theorem isPublicIPAddress_documentation (x : IP) (hlen : x.length = 16) (hb : allBytes x)
    (hdoc : x.take 4 = [0x20, 0x01, 0x0d, 0xb8]) :
    To4 x = none ∧ isPublicIPAddress x = true ∧
    (∀ (RawConn : Type) (network host port : GoString) (conn : RawConn),
      (network = str "tcp4" ∨ network = str "tcp6") → (port = str "80" ∨ port = str "443") →
      ParseIP host = some x →
      Control network (91 :: (host ++ 93 :: 58 :: port)) conn = none) := by
  have h0 : x.getD 0 0 = 0x20 := by
    cases x with
    | nil => simp at hlen
    | cons y ys =>
      simp only [List.take_succ_cons, List.cons.injEq] at hdoc
      simp [hdoc.1]
  have h4 : To4 x = none := To4_none_of_first x hlen (by omega)
  have hpub : isPublicIPAddress x = true :=
    (isPublicIPAddress_range x hlen hb h4).mpr (by omega)
  refine ⟨h4, hpub, ?_⟩
  intro RawConn network host port conn hn hp hx
  rw [Control_bracketed network host port x conn hn hp hx, if_pos hpub]

theorem isPublicIPAddress_documentation_witness :
    isPublicIPAddress [0x20, 0x01, 0x0d, 0xb8, 0xff, 0xff, 0xff, 0xff, 0xff, 0xff, 0xff, 0xff,
      0xff, 0xff, 0xff, 0xff] = true ∧
    Control (str "tcp4") (str "[2001:db8::]:80") () = none :=
  ⟨(isPublicIPAddress_documentation [0x20, 0x01, 0x0d, 0xb8, 0xff, 0xff, 0xff, 0xff, 0xff,
      0xff, 0xff, 0xff, 0xff, 0xff, 0xff, 0xff] (by decide) (by decide) (by decide)).2.1,
   (isPublicIPAddress_documentation [0x20, 0x01, 0x0d, 0xb8, 0, 0, 0, 0, 0, 0, 0, 0, 0, 0, 0, 0]
      (by decide) (by decide) (by decide)).2.2 Unit (str "tcp4") (str "2001:db8::")
      (str "80") () (by decide) (by decide) (by decide)⟩

/-! ## `ipv4Net` implements the comparison of the top bits -/

/-- C12: for all bytes `a b c d`, every length `n ≤ 32` and every IPv4 address
`x0.x1.x2.x3`, in 4-byte or in 16-byte IPv4-mapped form,
`ipv4Net(a, b, c, d, n).Contains` is true exactly when the top `n` bits of the
address are those of `a.b.c.d`; it is false on every address that `To4`
rejects (a genuine IPv6 address).  `isIPv4Reserved` is true exactly when some
entry of the table contains the address, that is when the address lies in one
of the 15 blocks. -/
theorem ipv4Net_Contains_iff (a b c d n x0 x1 x2 x3 : Nat)
    (ha : a < 256) (hb : b < 256) (hc : c < 256) (hd : d < 256)
    (h0 : x0 < 256) (h1 : x1 < 256) (h2 : x2 < 256) (h3 : x3 < 256) (hn : n ≤ 32) :
    ((ipv4Net a b c d (n : Int)).Contains [x0, x1, x2, x3] = true ↔
      inBlock (ipv4Value a b c d) n (ipv4Value x0 x1 x2 x3)) ∧
    ((ipv4Net a b c d (n : Int)).Contains (IPv4 x0 x1 x2 x3) = true ↔
      inBlock (ipv4Value a b c d) n (ipv4Value x0 x1 x2 x3)) ∧
    (∀ y : IP, To4 y = none → (ipv4Net a b c d (n : Int)).Contains y = false) ∧
    (∀ x : IP, isIPv4Reserved x = true ↔ ∃ net ∈ reservedIPv4Nets, net.Contains x = true) ∧
    (isIPv4Reserved [x0, x1, x2, x3] = true ↔ inReservedBlocks x0 x1 x2 x3) ∧
    (isIPv4Reserved (IPv4 x0 x1 x2 x3) = true ↔ inReservedBlocks x0 x1 x2 x3) ∧
    (∀ y : IP, To4 y = none → isIPv4Reserved y = false) := by
  have k := ipv4Net_Contains_four a b c d n x0 x1 x2 x3 ha hb hc hd h0 h1 h2 h3 hn
  refine ⟨k, ?_, ?_, ?_, ?_, ?_, ?_⟩
  · rw [IPv4_eq x0 x1 x2 x3 h0 h1 h2 h3, ← Contains_four_eq_mapped]
    exact k
  · intro y hy
    apply Contains_of_To4_none _ y hy
    rw [networkNumberAndMask_ipv4Net a b c d n ha hb hc hd hn]
    rfl
  · intro x
    exact isIPv4ReservedLoop_iff x reservedIPv4Nets
  · exact isIPv4Reserved_four x0 x1 x2 x3 h0 h1 h2 h3
  · rw [IPv4_eq x0 x1 x2 x3 h0 h1 h2 h3]
    exact isIPv4Reserved_iff_inReservedBlocks x0 x1 x2 x3 h0 h1 h2 h3
  · exact isIPv4Reserved_of_To4_none

theorem ipv4Net_Contains_iff_witness :
    (ipv4Net 100 64 0 0 10).Contains [100, 127, 255, 255] = true ∧
    (ipv4Net 100 64 0 0 10).Contains (IPv4 100 128 0 0) = false ∧
    (ipv4Net 100 64 0 0 10).Contains
      [0x20, 0x01, 0x0d, 0xb8, 0, 0, 0, 0, 0, 0, 0, 0, 100, 64, 0, 1] = false :=
  ⟨(ipv4Net_Contains_iff 100 64 0 0 10 100 127 255 255 (by decide) (by decide) (by decide)
      (by decide) (by decide) (by decide) (by decide) (by decide) (by decide)).1.mpr
      (by decide),
   by decide,
   (ipv4Net_Contains_iff 100 64 0 0 10 100 127 255 255 (by decide) (by decide) (by decide)
      (by decide) (by decide) (by decide) (by decide) (by decide) (by decide)).2.2.1 _
      (by decide)⟩

/-! ## The tables are well-formed CIDR blocks -/

theorem cidrMaskLoop_length (cnt n : Nat) : (cidrMaskLoop cnt n).length = cnt := by
  induction cnt generalizing n with
  | zero => rfl
  | succ cnt ih =>
    unfold cidrMaskLoop
    split <;> simp [ih]

theorem list_length_four (m : List Nat) (h : m.length = 4) :
    ∃ m0 m1 m2 m3, m = [m0, m1, m2, m3] := by
  match m, h with
  | [m0, m1, m2, m3], _ => exact ⟨m0, m1, m2, m3, rfl⟩

/-- When the host bits of the base are zero, `Contains` is: mask the candidate
and compare it with the base. -/
theorem ipv4Net_Contains_masked (a b c d n x0 x1 x2 x3 : Nat)
    (ha : a < 256) (hb : b < 256) (hc : c < 256) (hd : d < 256) (hn : n ≤ 32)
    (halign : List.zipWith (fun x y => x &&& y) [a, b, c, d] (cidrMaskLoop 4 n) = [a, b, c, d]) :
    (ipv4Net a b c d (n : Int)).Contains [x0, x1, x2, x3] = true ↔
      List.zipWith (fun x y => x &&& y) [x0, x1, x2, x3]
        (networkNumberAndMask (ipv4Net a b c d (n : Int))).2 =
        (networkNumberAndMask (ipv4Net a b c d (n : Int))).1 := by
  have hC : (ipv4Net a b c d (n : Int)).Contains [x0, x1, x2, x3] =
      containsLoop [a, b, c, d] (cidrMaskLoop 4 n) [x0, x1, x2, x3] 4 4 0 := by
    simp [IPNet.Contains, networkNumberAndMask_ipv4Net a b c d n ha hb hc hd hn, To4_four]
  rw [hC, networkNumberAndMask_ipv4Net a b c d n ha hb hc hd hn]
  obtain ⟨m0, m1, m2, m3, hm⟩ := list_length_four _ (cidrMaskLoop_length 4 n)
  rw [hm] at halign ⊢
  simp only [List.zipWith_cons_cons, List.zipWith_nil_right, List.cons.injEq, and_true]
    at halign
  obtain ⟨e0, e1, e2, e3⟩ := halign
  rw [containsLoop_four]
  simp only [List.zipWith_cons_cons, List.zipWith_nil_right, List.cons.injEq, and_true,
    e0, e1, e2, e3]
  constructor
  · rintro ⟨q0, q1, q2, q3⟩
    exact ⟨q0.symm, q1.symm, q2.symm, q3.symm⟩
  · rintro ⟨q0, q1, q2, q3⟩
    exact ⟨q0.symm, q1.symm, q2.symm, q3.symm⟩

set_option maxRecDepth 100000 in
/-- C13: the reserved IPv4 table has exactly 15 entries, each a well-formed
CIDR block: its length is in [0, 32] and the host bits of its base are zero
(base AND mask = base); the entries are the 15 blocks of the specification.  So
`Contains` on an entry is: mask the candidate and compare it with the stored
base.  The IPv6 range has length 3, in [0, 128], and the aligned base 2000::. -/
theorem reserved_table_well_formed :
    reservedIPv4Nets.length = 15 ∧
    List.Forall₂ (fun net blk => wellFormedBlock (networkNumberAndMask net).1
        (networkNumberAndMask net).2 32 blk.2 ∧ netBase net = blk.1 ∧
        netBase net % 2 ^ (32 - blk.2) = 0 ∧ net = ipv4Net (blk.1 / 2 ^ 24)
          (blk.1 / 2 ^ 16 % 256) (blk.1 / 2 ^ 8 % 256) (blk.1 % 256) blk.2)
      reservedIPv4Nets reservedBlocks ∧
    (∀ net ∈ reservedIPv4Nets, ∀ x0 x1 x2 x3 : Nat,
      net.Contains [x0, x1, x2, x3] = true ↔
        List.zipWith (fun x y => x &&& y) [x0, x1, x2, x3] (networkNumberAndMask net).2 =
          (networkNumberAndMask net).1) ∧
    wellFormedBlock (networkNumberAndMask globalUnicastIPv6Net).1
      (networkNumberAndMask globalUnicastIPv6Net).2 128 3 ∧
    (networkNumberAndMask globalUnicastIPv6Net).1 =
      [0x20, 0, 0, 0, 0, 0, 0, 0, 0, 0, 0, 0, 0, 0, 0, 0] := by
  refine ⟨by decide, by decide, ?_, by decide, by decide⟩
  intro net hnet x0 x1 x2 x3
  simp only [reservedIPv4Nets, List.mem_cons, List.mem_singleton, List.not_mem_nil,
    or_false] at hnet
  rcases hnet with h | h | h | h | h | h | h | h | h | h | h | h | h | h | h <;> subst h
  · exact ipv4Net_Contains_masked 0 0 0 0 8 x0 x1 x2 x3 (by decide) (by decide) (by decide)
      (by decide) (by decide) (by decide)
  · exact ipv4Net_Contains_masked 10 0 0 0 8 x0 x1 x2 x3 (by decide) (by decide) (by decide)
      (by decide) (by decide) (by decide)
  · exact ipv4Net_Contains_masked 100 64 0 0 10 x0 x1 x2 x3 (by decide) (by decide)
      (by decide) (by decide) (by decide) (by decide)
  · exact ipv4Net_Contains_masked 127 0 0 0 8 x0 x1 x2 x3 (by decide) (by decide) (by decide)
      (by decide) (by decide) (by decide)
  · exact ipv4Net_Contains_masked 169 254 0 0 16 x0 x1 x2 x3 (by decide) (by decide)
      (by decide) (by decide) (by decide) (by decide)
  · exact ipv4Net_Contains_masked 172 16 0 0 12 x0 x1 x2 x3 (by decide) (by decide)
      (by decide) (by decide) (by decide) (by decide)
  · exact ipv4Net_Contains_masked 192 0 0 0 24 x0 x1 x2 x3 (by decide) (by decide)
      (by decide) (by decide) (by decide) (by decide)
  · exact ipv4Net_Contains_masked 192 0 2 0 24 x0 x1 x2 x3 (by decide) (by decide)
      (by decide) (by decide) (by decide) (by decide)
  · exact ipv4Net_Contains_masked 192 88 99 0 24 x0 x1 x2 x3 (by decide) (by decide)
      (by decide) (by decide) (by decide) (by decide)
  · exact ipv4Net_Contains_masked 192 168 0 0 16 x0 x1 x2 x3 (by decide) (by decide)
      (by decide) (by decide) (by decide) (by decide)
  · exact ipv4Net_Contains_masked 198 18 0 0 15 x0 x1 x2 x3 (by decide) (by decide)
      (by decide) (by decide) (by decide) (by decide)
  · exact ipv4Net_Contains_masked 198 51 100 0 24 x0 x1 x2 x3 (by decide) (by decide)
      (by decide) (by decide) (by decide) (by decide)
  · exact ipv4Net_Contains_masked 203 0 113 0 24 x0 x1 x2 x3 (by decide) (by decide)
      (by decide) (by decide) (by decide) (by decide)
  · exact ipv4Net_Contains_masked 224 0 0 0 4 x0 x1 x2 x3 (by decide) (by decide) (by decide)
      (by decide) (by decide) (by decide)
  · exact ipv4Net_Contains_masked 240 0 0 0 4 x0 x1 x2 x3 (by decide) (by decide) (by decide)
      (by decide) (by decide) (by decide)

theorem reserved_table_well_formed_witness :
    ((ipv4Net 172 16 0 0 12).Contains [172, 31, 255, 255] = true ↔
      List.zipWith (fun x y => x &&& y) [172, 31, 255, 255]
        (networkNumberAndMask (ipv4Net 172 16 0 0 12)).2 =
        (networkNumberAndMask (ipv4Net 172 16 0 0 12)).1) ∧
    (ipv4Net 172 16 0 0 12).Contains [172, 31, 255, 255] = true :=
  ⟨reserved_table_well_formed.2.2.1 (ipv4Net 172 16 0 0 12) (by decide) 172 31 255 255,
   by decide⟩

/-! ## What `ErrUnsafePort` tells about the address -/

theorem Control_empty_port_counterexample :
    SplitHostPort (str "93.184.216.34:") = some (str "93.184.216.34", []) ∧
    Control (str "tcp4") (str "93.184.216.34:") () = some ErrUnsafePort := by
  decide

/-- C14 (amended): whenever `Control` returns `ErrUnsafePort`, the network is
"tcp4" or "tcp6", the address was split into a host and a port, and the port
holds no colon and no bracket and is different from "80" and "443".  The port
may be empty: an address such as "93.184.216.34:" is reported as
`ErrUnsafePort`. -/
theorem Control_unsafe_port_only_if {RawConn : Type} (network address : GoString)
    (c : RawConn) (h : Control network address c = some ErrUnsafePort) :
    (network = str "tcp4" ∨ network = str "tcp6") ∧
    ∃ host port, SplitHostPort address = some (host, port) ∧
      port ≠ str "80" ∧ port ≠ str "443" ∧ 58 ∉ port ∧ 91 ∉ port ∧ 93 ∉ port ∧
      (address = host ++ 58 :: port ∨ address = 91 :: (host ++ 93 :: 58 :: port)) := by
  unfold Control at h
  by_cases hn : ¬ (network = str "tcp4" ∨ network = str "tcp6")
  · rw [if_pos hn] at h
    exact absurd h (by decide)
  · rw [if_neg hn] at h
    refine ⟨not_not.mp hn, ?_⟩
    cases hs : SplitHostPort address with
    | none =>
      rw [hs] at h
      exact absurd h (by decide)
    | some hp =>
      obtain ⟨host, port⟩ := hp
      rw [hs] at h
      dsimp only at h
      obtain ⟨p1, p2, p3, hshape⟩ := SplitHostPort_eq_some address host port hs
      by_cases hport : ¬ (port = str "80" ∨ port = str "443")
      · refine ⟨host, port, rfl, fun e => hport (Or.inl e), fun e => hport (Or.inr e),
          p1, p2, p3, ?_⟩
        rcases hshape with hsh | hsh
        · exact Or.inl hsh.1
        · exact Or.inr hsh.1
      · rw [if_neg hport] at h
        exfalso
        cases hi : ParseIP host with
        | none =>
          rw [hi] at h
          exact absurd h (by decide)
        | some ip =>
          rw [hi] at h
          dsimp only at h
          by_cases hpub : ¬ isPublicIPAddress ip = true
          · rw [if_pos hpub] at h
            exact absurd h (by decide)
          · rw [if_neg hpub] at h
            exact absurd h (by decide)

theorem Control_unsafe_port_only_if_witness :
    Control (str "tcp4") (str "93.184.216.34:") () = some ErrUnsafePort ∧
    ∃ host port, SplitHostPort (str "93.184.216.34:") = some (host, port) ∧
      port ≠ str "80" ∧ port ≠ str "443" ∧ 58 ∉ port ∧ 91 ∉ port ∧ 93 ∉ port ∧
      (str "93.184.216.34:" = host ++ 58 :: port ∨
        str "93.184.216.34:" = 91 :: (host ++ 93 :: 58 :: port)) :=
  ⟨by decide,
   (Control_unsafe_port_only_if (str "tcp4") (str "93.184.216.34:") () (by decide)).2⟩

/-! ## Calls of `Control` on explicit package variables -/

theorem isPublicIPAddressS_eq (vars : PackageVars) (address : IP) :
    isPublicIPAddressS vars address =
      ((if (To4 address).isSome then !isIPv4ReservedLoop address vars.reservedIPv4Nets
        else vars.globalUnicastIPv6Net.Contains address), vars) := by
  unfold isPublicIPAddressS isIPv4ReservedS isIPv6GlobalUnicastS
  by_cases h : (To4 address).isSome = true
  · rw [if_pos h, if_pos h]
  · rw [if_neg h, if_neg h]

theorem isPublicIPAddressS_initial (address : IP) :
    isPublicIPAddressS initialVars address = (isPublicIPAddress address, initialVars) := by
  rw [isPublicIPAddressS_eq]
  rfl

/-- A call of `Control` hands the package variables back as it received them. -/
theorem ControlS_vars (vars : PackageVars) (network address : GoString) (c : SyscallRawConn) :
    (ControlS vars network address c).2 = vars := by
  unfold ControlS
  by_cases hn : ¬ (network = str "tcp4" ∨ network = str "tcp6")
  · rw [if_pos hn]
  · rw [if_neg hn]
    cases hs : SplitHostPort address with
    | none => rfl
    | some hp =>
      obtain ⟨host, port⟩ := hp
      dsimp only
      by_cases hport : ¬ (port = str "80" ∨ port = str "443")
      · rw [if_pos hport]
      · rw [if_neg hport]
        cases hi : ParseIP host with
        | none => rfl
        | some ip =>
          dsimp only
          rw [isPublicIPAddressS_eq]
          dsimp only
          split <;> split <;> rfl

/-- On the initial variables the result of a call is that of `Control`. -/
theorem ControlS_initial (network address : GoString) (c : SyscallRawConn) :
    (ControlS initialVars network address c).1 = Control network address c := by
  unfold ControlS Control
  by_cases hn : ¬ (network = str "tcp4" ∨ network = str "tcp6")
  · rw [if_pos hn, if_pos hn]
    rfl
  · rw [if_neg hn, if_neg hn]
    cases hs : SplitHostPort address with
    | none => rfl
    | some hp =>
      obtain ⟨host, port⟩ := hp
      dsimp only
      by_cases hport : ¬ (port = str "80" ∨ port = str "443")
      · rw [if_pos hport, if_pos hport]
        rfl
      · rw [if_neg hport, if_neg hport]
        cases hi : ParseIP host with
        | none => rfl
        | some ip =>
          dsimp only
          rw [isPublicIPAddressS_initial]
          dsimp only
          by_cases hpub : ¬ isPublicIPAddress ip = true
          · rw [if_pos hpub, if_pos hpub]
            rfl
          · rw [if_neg hpub, if_neg hpub]

theorem runCalls_vars (vars : PackageVars)
    (calls : List (GoString × GoString × SyscallRawConn)) :
    (runCalls vars calls).2 = vars := by
  induction calls generalizing vars with
  | nil => rfl
  | cons call rest ih =>
    obtain ⟨network, address, c⟩ := call
    unfold runCalls
    have h1 := ControlS_vars vars network address c
    cases hc : ControlS vars network address c with
    | mk result vars1 =>
      rw [hc] at h1
      dsimp only at h1 ⊢
      subst h1
      have h2 := ih vars1
      cases hr : runCalls vars1 rest with
      | mk results vars2 =>
        rw [hr] at h2
        exact h2

/-- C15: the verdict of `Control` depends only on the network and address
strings.  After any two histories of calls, with any two connection handles,
`Control` on the same network and address returns the same result and leaves
the same package variables; a call writes no package variable, for whatever
values they hold; and the result is, after every history, the value of the
function `Control` of the two strings. -/
theorem ControlS_depends_only_on_strings
    (history1 history2 : List (GoString × GoString × SyscallRawConn))
    (network address : GoString) (c1 c2 : SyscallRawConn) :
    ControlS (runCalls initialVars history1).2 network address c1 =
      ControlS (runCalls initialVars history2).2 network address c2 ∧
    (ControlS (runCalls initialVars history1).2 network address c1).1 =
      Control network address c1 ∧
    (ControlS (runCalls initialVars history1).2 network address c1).2 = initialVars ∧
    (∀ vars : PackageVars, (ControlS vars network address c1).2 = vars ∧
      ControlS vars network address c1 = ControlS vars network address c2) := by
  rw [runCalls_vars, runCalls_vars]
  exact ⟨rfl, ControlS_initial network address c1, ControlS_vars _ _ _ _,
    fun vars => ⟨ControlS_vars vars network address c1, rfl⟩⟩

/-- C16: the network tag is not compared with the family of the address: for
every address `Control` returns the same on "tcp4" and on "tcp6"; an IPv6
literal is allowed over "tcp4" and a public IPv4 literal over "tcp6". -/
theorem Control_tcp4_eq_tcp6 {RawConn : Type} (address : GoString) (c : RawConn) :
    Control (str "tcp4") address c = Control (str "tcp6") address c ∧
    Control (str "tcp4") (str "[2606:2800:220:1:248:1893:25c8:1946]:443") () = none ∧
    Control (str "tcp6") (str "93.184.216.34:80") () = none := by
  refine ⟨?_, by decide, by decide⟩
  have h4 : ¬ ¬ (str "tcp4" = str "tcp4" ∨ str "tcp4" = str "tcp6") := by decide
  have h6 : ¬ ¬ (str "tcp6" = str "tcp4" ∨ str "tcp6" = str "tcp6") := by decide
  unfold Control
  rw [if_neg h4, if_neg h6]

/-! ## Order and disjointness of the reserved table -/

/-- The 15 blocks of the specification are pairwise disjoint. -/
theorem reservedBlocks_disjoint (v : Nat) :
    List.Pairwise (fun b1 b2 : Nat × Nat => ¬ (inBlock b1.1 b1.2 v ∧ inBlock b2.1 b2.2 v))
      reservedBlocks := by
  simp only [reservedBlocks, List.pairwise_cons, List.mem_cons, List.mem_singleton,
    forall_eq_or_imp, forall_eq, List.not_mem_nil, false_implies, implies_true, and_true,
    List.Pairwise.nil, inBlock, ipv4Value, Nat.reducePow, Nat.reduceSub, Nat.reduceMul,
    Nat.reduceAdd, Nat.reduceDiv]
  and_intros <;> omega

/-- Entry by entry, `Contains` on the table is membership in the blocks of the
specification. -/
theorem table_Contains (x0 x1 x2 x3 : Nat)
    (h0 : x0 < 256) (h1 : x1 < 256) (h2 : x2 < 256) (h3 : x3 < 256) :
    reservedIPv4Nets.map (fun net => net.Contains [x0, x1, x2, x3]) =
      reservedBlocks.map (fun b => decide (inBlock b.1 b.2 (ipv4Value x0 x1 x2 x3))) := by
  have k : ∀ a b c d n : Nat, a < 256 → b < 256 → c < 256 → d < 256 → n ≤ 32 →
      (ipv4Net a b c d (n : Int)).Contains [x0, x1, x2, x3] =
        decide (inBlock (ipv4Value a b c d) n (ipv4Value x0 x1 x2 x3)) :=
    fun a b c d n ha hb hc hd hn =>
      ipv4Net_Contains_eq a b c d n x0 x1 x2 x3 ha hb hc hd h0 h1 h2 h3 hn
  have e1 := k 0 0 0 0 8 (by omega) (by omega) (by omega) (by omega) (by omega)
  have e2 := k 10 0 0 0 8 (by omega) (by omega) (by omega) (by omega) (by omega)
  have e3 := k 100 64 0 0 10 (by omega) (by omega) (by omega) (by omega) (by omega)
  have e4 := k 127 0 0 0 8 (by omega) (by omega) (by omega) (by omega) (by omega)
  have e5 := k 169 254 0 0 16 (by omega) (by omega) (by omega) (by omega) (by omega)
  have e6 := k 172 16 0 0 12 (by omega) (by omega) (by omega) (by omega) (by omega)
  have e7 := k 192 0 0 0 24 (by omega) (by omega) (by omega) (by omega) (by omega)
  have e8 := k 192 0 2 0 24 (by omega) (by omega) (by omega) (by omega) (by omega)
  have e9 := k 192 88 99 0 24 (by omega) (by omega) (by omega) (by omega) (by omega)
  have e10 := k 192 168 0 0 16 (by omega) (by omega) (by omega) (by omega) (by omega)
  have e11 := k 198 18 0 0 15 (by omega) (by omega) (by omega) (by omega) (by omega)
  have e12 := k 198 51 100 0 24 (by omega) (by omega) (by omega) (by omega) (by omega)
  have e13 := k 203 0 113 0 24 (by omega) (by omega) (by omega) (by omega) (by omega)
  have e14 := k 224 0 0 0 4 (by omega) (by omega) (by omega) (by omega) (by omega)
  have e15 := k 240 0 0 0 4 (by omega) (by omega) (by omega) (by omega) (by omega)
  simp only [Nat.cast_ofNat] at e1 e2 e3 e4 e5 e6 e7 e8 e9 e10 e11 e12 e13 e14 e15
  simp only [reservedIPv4Nets, reservedBlocks, List.map_cons, List.map_nil,
    e1, e2, e3, e4, e5, e6, e7, e8, e9, e10, e11, e12, e13, e14, e15]

theorem table_disjoint (x0 x1 x2 x3 : Nat)
    (h0 : x0 < 256) (h1 : x1 < 256) (h2 : x2 < 256) (h3 : x3 < 256) :
    List.Pairwise (fun n1 n2 : IPNet =>
      ¬ (n1.Contains [x0, x1, x2, x3] = true ∧ n2.Contains [x0, x1, x2, x3] = true))
      reservedIPv4Nets := by
  have hb := reservedBlocks_disjoint (ipv4Value x0 x1 x2 x3)
  have hmap : List.Pairwise (fun p q : Bool => ¬ (p = true ∧ q = true))
      (reservedIPv4Nets.map (fun net => net.Contains [x0, x1, x2, x3])) := by
    rw [table_Contains x0 x1 x2 x3 h0 h1 h2 h3, List.pairwise_map]
    exact hb.imp (fun h hd => h ⟨of_decide_eq_true hd.1, of_decide_eq_true hd.2⟩)
  exact List.pairwise_map.mp hmap

theorem filter_length_le_one (l : List IPNet) (p : IPNet → Bool)
    (h : List.Pairwise (fun a b => ¬ (p a = true ∧ p b = true)) l) :
    (l.filter p).length ≤ 1 := by
  induction l with
  | nil => simp
  | cons a l ih =>
    rw [List.pairwise_cons] at h
    have ih' := ih h.2
    by_cases ha : p a = true
    · have hnone : l.filter p = [] := by
        rw [List.filter_eq_nil_iff]
        intro b hb hpb
        exact h.1 b hb ⟨ha, hpb⟩
      simp [List.filter_cons, ha, hnone]
    · simp only [List.filter_cons, ha]
      exact ih'

theorem isIPv4ReservedLoop_perm (x : IP) (l1 l2 : List IPNet) (h : l1.Perm l2) :
    isIPv4ReservedLoop x l1 = isIPv4ReservedLoop x l2 := by
  have e : isIPv4ReservedLoop x l1 = true ↔ isIPv4ReservedLoop x l2 = true := by
    rw [isIPv4ReservedLoop_iff, isIPv4ReservedLoop_iff]
    constructor
    · rintro ⟨n, hn, hc⟩
      exact ⟨n, h.mem_iff.mp hn, hc⟩
    · rintro ⟨n, hn, hc⟩
      exact ⟨n, h.mem_iff.mpr hn, hc⟩
  cases h1 : isIPv4ReservedLoop x l1 with
  | true => exact (e.mp h1).symm
  | false =>
    cases h2 : isIPv4ReservedLoop x l2 with
    | false => rfl
    | true => rw [e.mpr h2] at h1; exact absurd h1 (by simp)

/-- C17: the 15 entries of the reserved table are listed in strictly ascending
order of base address and are pairwise disjoint: an IPv4 address (in 4-byte or
IPv4-mapped form) is contained in at most one entry, and the result of the scan
of `isIPv4Reserved` is the same for every order of the entries. -/
theorem reserved_table_sorted_disjoint :
    List.Pairwise (fun b1 b2 => b1 < b2) (reservedIPv4Nets.map netBase) ∧
    (∀ x0 x1 x2 x3 : Nat, x0 < 256 → x1 < 256 → x2 < 256 → x3 < 256 →
      List.Pairwise (fun n1 n2 : IPNet =>
        ¬ (n1.Contains [x0, x1, x2, x3] = true ∧ n2.Contains [x0, x1, x2, x3] = true))
        reservedIPv4Nets ∧
      (reservedIPv4Nets.filter (fun net => net.Contains [x0, x1, x2, x3])).length ≤ 1 ∧
      (reservedIPv4Nets.filter (fun net => net.Contains (IPv4 x0 x1 x2 x3))).length ≤ 1) ∧
    (∀ (x : IP) (nets : List IPNet), nets.Perm reservedIPv4Nets →
      isIPv4ReservedLoop x nets = isIPv4Reserved x) := by
  refine ⟨by decide, ?_, ?_⟩
  · intro x0 x1 x2 x3 h0 h1 h2 h3
    have hd := table_disjoint x0 x1 x2 x3 h0 h1 h2 h3
    have hf := filter_length_le_one reservedIPv4Nets
      (fun net => net.Contains [x0, x1, x2, x3]) hd
    refine ⟨hd, hf, ?_⟩
    have e : (fun net : IPNet => net.Contains (IPv4 x0 x1 x2 x3)) =
        fun net => net.Contains [x0, x1, x2, x3] := by
      funext net
      rw [IPv4_eq x0 x1 x2 x3 h0 h1 h2 h3, ← Contains_four_eq_mapped]
    rw [e]
    exact hf
  · intro x nets hp
    exact isIPv4ReservedLoop_perm x nets reservedIPv4Nets hp

theorem reserved_table_sorted_disjoint_witness :
    (reservedIPv4Nets.filter (fun net => net.Contains [192, 0, 2, 1])).length ≤ 1 ∧
    isIPv4ReservedLoop [192, 0, 2, 1] reservedIPv4Nets.reverse = isIPv4Reserved [192, 0, 2, 1] :=
  ⟨(reserved_table_sorted_disjoint.2.1 192 0 2 1 (by decide) (by decide) (by decide)
      (by decide)).2.1,
   reserved_table_sorted_disjoint.2.2 [192, 0, 2, 1] reservedIPv4Nets.reverse
     (List.reverse_perm _)⟩

end Safedialer
